import Mathlib

/-!
Shallow embedding of the quoting / discount-rating pipeline
(`routers/rate_request.py`, `routers/product_assignment.py`,
`routers/basket/ratebasket.py`) and proofs about its specification.

Monetary values in major units are rationals (`ℚ`); minor-unit prices
("pence") are integers (`ℤ`).  Python `round` (banker's rounding) is
modelled exactly on `ℚ`; Python `int(...)` truncation toward zero is
modelled by `pyInt`.
-/

/-- Python `round(q)` to an integer: round half to even (banker's rounding). -/
def roundHalfEven (q : ℚ) : ℤ :=
  let f : ℤ := ⌊q⌋
  let r : ℚ := q - f
  if r < 1/2 then f
  else if 1/2 < r then f + 1
  else if f % 2 = 0 then f else f + 1

/-- Python `round(q, 2)`: round to two decimal places, half to even. -/
def pyRound2 (q : ℚ) : ℚ := (roundHalfEven (q * 100) : ℚ) / 100

/-- Python `int(q)`: truncation toward zero. -/
def pyInt (q : ℚ) : ℤ := if 0 ≤ q then ⌊q⌋ else -⌊-q⌋

/-- Python `q % 1` (floored modulus, result in `[0, 1)`). -/
def pyMod1 (q : ℚ) : ℚ := q - ⌊q⌋

/-- Python `abs(q)`. -/
def qabs (q : ℚ) : ℚ := if q < 0 then -q else q

/-- Python `s.strip()` (character-level). -/
def pyStrip (s : String) : String :=
  String.mk (((s.data.dropWhile Char.isWhitespace).reverse.dropWhile
    Char.isWhitespace).reverse)

/-- Python `s.upper()` (character-level). -/
def pyUpper (s : String) : String := String.mk (s.data.map Char.toUpper)

/-- Python `s.lower()` (character-level). -/
def pyLower (s : String) : String := String.mk (s.data.map Char.toLower)

namespace RateReq

/-- `rate_request.normalize`: drop all non-word characters (`\W+`) and
lowercase.  (`.strip()` in the source is a no-op after the removal.) -/
def normalize (s : String) : String :=
  String.mk ((s.data.filter fun c => c.isAlpha || c.isDigit || c = '_').map Char.toLower)

/-- `rate_request.round_price_49_99`: round up to the nearest `.49` or `.99`
boundary, leaving values whose (2-dp-rounded) cents are within `0.001` of
`.49` or `.99` unchanged. -/
def round_price_49_99 (value : ℚ) : ℚ :=
  let cents := pyRound2 (pyMod1 value)
  let whole : ℤ := pyInt value
  if qabs (cents - 49/100) < 1/1000 ∨ qabs (cents - 99/100) < 1/1000 then pyRound2 value
  else if cents < 49/100 then pyRound2 ((whole : ℚ) + 49/100)
  else if cents < 99/100 then pyRound2 ((whole : ℚ) + 99/100)
  else pyRound2 ((whole : ℚ) + 149/100)

end RateReq

theorem roundHalfEven_intCast (n : ℤ) : roundHalfEven (n : ℚ) = n := by
  unfold roundHalfEven
  simp [Int.floor_intCast]

theorem pyRound2_div100 (m : ℤ) : pyRound2 ((m : ℚ) / 100) = (m : ℚ) / 100 := by
  unfold pyRound2
  rw [div_mul_cancel₀ (m : ℚ) (by norm_num : (100:ℚ) ≠ 0), roundHalfEven_intCast]

theorem qabs_lt_iff (x e : ℚ) : qabs x < e ↔ -e < x ∧ x < e := by
  unfold qabs
  split_ifs with h
  · constructor
    · intro hx; exact ⟨by linarith, by linarith⟩
    · intro hx; linarith [hx.1]
  · constructor
    · intro hx; exact ⟨by linarith, hx⟩
    · intro hx; exact hx.2

theorem floor_hundredths (k : ℤ) (c : ℕ) (hc : c < 100) :
    ⌊((100 * k + (c : ℤ) : ℤ) : ℚ) / 100⌋ = k := by
  have h := Rat.floor_intCast_div_natCast (100 * k + (c : ℤ)) 100
  have h2 : ((100 : ℕ) : ℤ) = (100 : ℤ) := by norm_num
  rw [h2] at h
  have h3 : (((100 : ℕ) : ℚ)) = (100 : ℚ) := by norm_num
  rw [h3] at h
  rw [h]
  omega

theorem pyMod1_hundredths (k : ℤ) (c : ℕ) (hc : c < 100) :
    pyMod1 (((100 * k + (c : ℤ) : ℤ) : ℚ) / 100) = (c : ℚ) / 100 := by
  unfold pyMod1
  rw [floor_hundredths k c hc]
  push_cast
  ring

theorem tolerance_iff (c d : ℕ) :
    qabs ((c : ℚ) / 100 - (d : ℚ) / 100) < 1/1000 ↔ c = d := by
  rw [qabs_lt_iff]
  constructor
  · rintro ⟨h1, h2⟩
    have a1 : 10 * ((c : ℚ) - (d : ℚ)) < 1 := by linarith
    have a2 : (-1 : ℚ) < 10 * ((c : ℚ) - (d : ℚ)) := by linarith
    have b1 : 10 * ((c : ℤ) - (d : ℤ)) < 1 := by exact_mod_cast a1
    have b2 : (-1 : ℤ) < 10 * ((c : ℤ) - (d : ℤ)) := by exact_mod_cast a2
    omega
  · rintro rfl
    norm_num

namespace RateReq

/-- Closed-form evaluation of `round_price_49_99` on a non-negative amount
with exactly two decimal places whose cents are not `49` or `99`. -/
theorem round_price_49_99_eval (w c : ℕ) (hc : c < 100) (h49 : c ≠ 49) (h99 : c ≠ 99) :
    round_price_49_99 (((100 * w + c : ℕ) : ℚ) / 100) =
      (if c < 49 then ((100 * w + 49 : ℕ) : ℚ) / 100 else ((100 * w + 99 : ℕ) : ℚ) / 100) := by
  have hv : (((100 * w + c : ℕ) : ℚ) / 100) = ((100 * (w : ℤ) + (c : ℤ) : ℤ) : ℚ) / 100 := by
    push_cast; ring
  unfold round_price_49_99
  rw [hv, pyMod1_hundredths (w : ℤ) c hc]
  have hcents : pyRound2 ((c : ℚ) / 100) = (c : ℚ) / 100 := by
    have := pyRound2_div100 (c : ℤ)
    rwa [Int.cast_natCast] at this
  rw [hcents]
  have htol49 : ¬ qabs ((c : ℚ) / 100 - 49/100) < 1/1000 := by
    have h : (49 : ℚ)/100 = ((49 : ℕ) : ℚ)/100 := by norm_num
    rw [h, tolerance_iff]; exact h49
  have htol99 : ¬ qabs ((c : ℚ) / 100 - 99/100) < 1/1000 := by
    have h : (99 : ℚ)/100 = ((99 : ℕ) : ℚ)/100 := by norm_num
    rw [h, tolerance_iff]; exact h99
  rw [if_neg (by tauto)]
  have hint : pyInt (((100 * (w : ℤ) + (c : ℤ) : ℤ) : ℚ) / 100) = (w : ℤ) := by
    unfold pyInt
    rw [if_pos (by positivity)]
    exact floor_hundredths (w : ℤ) c hc
  rw [hint]
  have hlt49 : ((c : ℚ) / 100 < 49/100) ↔ c < 49 := by
    rw [div_lt_div_iff_of_pos_right (by norm_num : (0:ℚ) < 100)]
    exact_mod_cast Nat.cast_lt (α := ℚ)
  have hlt99 : ((c : ℚ) / 100 < 99/100) ↔ c < 99 := by
    rw [div_lt_div_iff_of_pos_right (by norm_num : (0:ℚ) < 100)]
    exact_mod_cast Nat.cast_lt (α := ℚ)
  by_cases hcase : c < 49
  · rw [if_pos (hlt49.mpr hcase), if_pos hcase]
    have : ((w : ℤ) : ℚ) + 49/100 = (((100 * w + 49 : ℕ) : ℤ) : ℚ) / 100 := by push_cast; ring
    rw [this, pyRound2_div100, Int.cast_natCast]
  · have hc99 : c < 99 := by omega
    rw [if_neg (by rw [hlt49]; exact hcase), if_pos (hlt99.mpr hc99), if_neg hcase]
    have : ((w : ℤ) : ℚ) + 99/100 = (((100 * w + 99 : ℕ) : ℤ) : ℚ) / 100 := by push_cast; ring
    rw [this, pyRound2_div100, Int.cast_natCast]

/-- `round_price_49_99` leaves every exact `.49`/`.99` boundary unchanged. -/
theorem round_price_49_99_idem (v : ℚ)
    (h : pyMod1 v = 49/100 ∨ pyMod1 v = 99/100) : round_price_49_99 v = v := by
  have hv : v = (⌊v⌋ : ℚ) + pyMod1 v := by unfold pyMod1; ring
  unfold round_price_49_99
  rcases h with h49 | h99
  · rw [h49]
    have hcents : pyRound2 ((49 : ℚ)/100) = 49/100 := by
      have := pyRound2_div100 (49 : ℤ); norm_num at this ⊢; exact this
    rw [hcents, if_pos (Or.inl (by norm_num [qabs]))]
    have hfl : (⌊v⌋ : ℚ) = v - 49/100 := by
      rw [show (49:ℚ)/100 = pyMod1 v from h49.symm]; unfold pyMod1; ring
    have hform : v = (((100 * ⌊v⌋ + 49 : ℤ) : ℚ)) / 100 := by
      push_cast [hfl]; ring
    rw [hform, pyRound2_div100]
  · rw [h99]
    have hcents : pyRound2 ((99 : ℚ)/100) = 99/100 := by
      have := pyRound2_div100 (99 : ℤ); norm_num at this ⊢; exact this
    rw [hcents, if_pos (Or.inr (by norm_num [qabs]))]
    have hfl : (⌊v⌋ : ℚ) = v - 99/100 := by
      rw [show (99:ℚ)/100 = pyMod1 v from h99.symm]; unfold pyMod1; ring
    have hform : v = (((100 * ⌊v⌋ + 99 : ℤ) : ℚ)) / 100 := by
      push_cast [hfl]; ring
    rw [hform, pyRound2_div100]

end RateReq

/-- C2 (counterexample): the input `5.991` has fractional part `0.991`,
which is neither `.49` nor `.99`, yet `round_price_49_99` maps it to
`5.99 < 5.991` — the output does not strictly exceed the input. -/
theorem C2_counterexample :
    RateReq.round_price_49_99 (5991/1000) < 5991/1000 ∧
    pyMod1 (5991/1000) ≠ 49/100 ∧ pyMod1 (5991/1000) ≠ 99/100 := by
  have hmod : pyMod1 ((5991 : ℚ)/1000) = 991/1000 := by
    unfold pyMod1; norm_num
  have hcents : pyRound2 ((991 : ℚ)/1000) = 99/100 := by
    unfold pyRound2 roundHalfEven
    norm_num
  have hout : RateReq.round_price_49_99 (5991/1000) = 599/100 := by
    unfold RateReq.round_price_49_99
    rw [hmod, hcents, if_pos (Or.inr (by norm_num [qabs]))]
    unfold pyRound2 roundHalfEven
    norm_num
  refine ⟨by rw [hout]; norm_num, by rw [hmod]; norm_num, by rw [hmod]; norm_num⟩

/-- C2 (amended): `round_price_49_99` is idempotent on every input whose
fractional part is exactly `.49` or `.99`; and for every non-negative input
with exactly two decimal places that is not at such a boundary, the output
strictly exceeds the input and equals the smallest value above the input
whose fractional part is `.49` or `.99`. -/
theorem C2_round_price_49_99 :
    (∀ v : ℚ, pyMod1 v = 49/100 ∨ pyMod1 v = 99/100 →
      RateReq.round_price_49_99 v = v) ∧
    (∀ w c : ℕ, c < 100 → c ≠ 49 → c ≠ 99 →
      ((100 * w + c : ℕ) : ℚ) / 100 <
          RateReq.round_price_49_99 (((100 * w + c : ℕ) : ℚ) / 100) ∧
      (pyMod1 (RateReq.round_price_49_99 (((100 * w + c : ℕ) : ℚ) / 100)) = 49/100 ∨
       pyMod1 (RateReq.round_price_49_99 (((100 * w + c : ℕ) : ℚ) / 100)) = 99/100) ∧
      ∀ u : ℚ, pyMod1 u = 49/100 ∨ pyMod1 u = 99/100 →
        ((100 * w + c : ℕ) : ℚ) / 100 < u →
        RateReq.round_price_49_99 (((100 * w + c : ℕ) : ℚ) / 100) ≤ u) := by
  constructor
  · exact RateReq.round_price_49_99_idem
  · intro w c hc h49 h99
    rw [RateReq.round_price_49_99_eval w c hc h49 h99]
    have hmod49 : pyMod1 (((100 * w + 49 : ℕ) : ℚ) / 100) = 49/100 := by
      have h : (((100 * w + 49 : ℕ) : ℚ) / 100) = ((100 * (w:ℤ) + ((49:ℕ) : ℤ) : ℤ) : ℚ) / 100 := by
        push_cast; ring
      rw [h, pyMod1_hundredths (w : ℤ) 49 (by norm_num)]; norm_num
    have hmod99 : pyMod1 (((100 * w + 99 : ℕ) : ℚ) / 100) = 99/100 := by
      have h : (((100 * w + 99 : ℕ) : ℚ) / 100) = ((100 * (w:ℤ) + ((99:ℕ) : ℤ) : ℤ) : ℚ) / 100 := by
        push_cast; ring
      rw [h, pyMod1_hundredths (w : ℤ) 99 (by norm_num)]; norm_num
    have hcast : ∀ a b : ℤ, a < b → ((a : ℚ) / 100 < (b : ℚ) / 100) := by
      intro a b hab
      rw [div_lt_div_iff_of_pos_right (by norm_num : (0:ℚ) < 100)]
      exact_mod_cast hab
    have hcastle : ∀ a b : ℤ, a ≤ b → ((a : ℚ) / 100 ≤ (b : ℚ) / 100) := by
      intro a b hab
      rw [div_le_div_iff_of_pos_right (by norm_num : (0:ℚ) < 100)]
      exact_mod_cast hab
    refine ⟨?_, ?_, ?_⟩
    · split_ifs with hlt
      · have : ((100 * w + c : ℕ) : ℚ) = (((100 * w + c : ℕ) : ℤ) : ℚ) := by push_cast; ring
        rw [this]
        have h2 : ((100 * w + 49 : ℕ) : ℚ) = (((100 * w + 49 : ℕ) : ℤ) : ℚ) := by push_cast; ring
        rw [h2]
        exact hcast _ _ (by push_cast; omega)
      · have : ((100 * w + c : ℕ) : ℚ) = (((100 * w + c : ℕ) : ℤ) : ℚ) := by push_cast; ring
        rw [this]
        have h2 : ((100 * w + 99 : ℕ) : ℚ) = (((100 * w + 99 : ℕ) : ℤ) : ℚ) := by push_cast; ring
        rw [h2]
        exact hcast _ _ (by push_cast; omega)
    · split_ifs with hlt
      · exact Or.inl hmod49
      · exact Or.inr hmod99
    · intro u hu hvu
      have hufloor : ∀ d : ℕ, pyMod1 u = (d : ℚ)/100 → u = ((100 * ⌊u⌋ + (d : ℤ) : ℤ) : ℚ) / 100 := by
        intro d hd
        have hfl : (⌊u⌋ : ℚ) = u - (d : ℚ)/100 := by
          rw [show (d:ℚ)/100 = pyMod1 u from hd.symm]; unfold pyMod1; ring
        push_cast [hfl]; ring
      have hvform : ((100 * w + c : ℕ) : ℚ) / 100 = ((100 * (w:ℤ) + (c:ℤ) : ℤ) : ℚ) / 100 := by
        push_cast; ring
      have hdiv_lt : ∀ a b : ℤ, ((a : ℚ) / 100 < (b : ℚ) / 100) → a < b := by
        intro a b hab
        rw [div_lt_div_iff_of_pos_right (by norm_num : (0:ℚ) < 100)] at hab
        exact_mod_cast hab
      rcases hu with h49u | h99u
      · have hu' := hufloor 49 (by rw [h49u]; norm_num)
        rw [hu'] at hvu ⊢
        rw [hvform] at hvu
        have hlt2 := hdiv_lt _ _ hvu
        split_ifs with hlt
        · have h2 : ((100 * w + 49 : ℕ) : ℚ) = (((100 * (w:ℤ) + 49 : ℤ)) : ℚ) := by push_cast; ring
          rw [h2]
          exact hcastle _ _ (by omega)
        · have h2 : ((100 * w + 99 : ℕ) : ℚ) = (((100 * (w:ℤ) + 99 : ℤ)) : ℚ) := by push_cast; ring
          rw [h2]
          exact hcastle _ _ (by omega)
      · have hu' := hufloor 99 (by rw [h99u]; norm_num)
        rw [hu'] at hvu ⊢
        rw [hvform] at hvu
        have hlt2 := hdiv_lt _ _ hvu
        split_ifs with hlt
        · have h2 : ((100 * w + 49 : ℕ) : ℚ) = (((100 * (w:ℤ) + 49 : ℤ)) : ℚ) := by push_cast; ring
          rw [h2]
          exact hcastle _ _ (by omega)
        · have h2 : ((100 * w + 99 : ℕ) : ℚ) = (((100 * (w:ℤ) + 99 : ℤ)) : ℚ) := by push_cast; ring
          rw [h2]
          exact hcastle _ _ (by omega)

namespace RateReq

/-- One entry of a `RatingConfig.localeFactor` array. -/
structure LocaleFactor where
  locale : String
  factor : ℚ
deriving DecidableEq

/-- One entry of a `RatingConfig.categoryFactor` array. -/
structure CategoryFactor where
  device : String
  factor : ℚ
deriving DecidableEq

/-- One entry of a `RatingConfig.priceFactor` array. -/
structure PriceFactor where
  priceLow : ℚ
  priceHigh : ℚ
  factor : ℚ
deriving DecidableEq

/-- A `Rating` collection document.  The string-keyed sub-maps
(`pocFactor`, `ageFactor`, `multiFactor`) are association lists. -/
structure RatingDoc where
  doc_id : String
  currency : String
  productID : List String
  baseFee : ℚ
  localeFactor : List LocaleFactor
  pocFactor : List (String × ℚ)
  categoryFactor : List CategoryFactor
  ageFactor : List (String × ℚ)
  priceFactor : List PriceFactor
  multiFactor : List (String × ℚ)
deriving DecidableEq

/-- The `RateRequest` payload. -/
structure Payload where
  product_id : String
  currency : String
  locale : String
  poc : ℤ
  category : String
  age : ℤ
  price : ℚ
  multi_count : ℤ
deriving DecidableEq

/-- The per-field failure tags of `match_with_reasons` (the source builds
human-readable strings; only which predicate failed is semantically relevant). -/
inductive RateFail where
  | currency | product | locale | poc | category | age | price | multi
deriving DecidableEq

/-- A conditional one-element reason list (`reasons.append(...)` under `if`). -/
def flag (c : Prop) [Decidable c] (r : RateFail) : List RateFail :=
  if c then [r] else []

/-- `rate_request.match_with_reasons`: the failure reasons of one document
against the payload, in source order.  The document matches iff this list is
empty. -/
def match_with_reasons (doc : RatingDoc) (p : Payload) : List RateFail :=
  flag (doc.currency ≠ p.currency) RateFail.currency ++
  flag (p.product_id ∉ doc.productID) RateFail.product ++
  flag (¬ doc.localeFactor.any fun lf => normalize lf.locale == normalize p.locale)
    RateFail.locale ++
  flag ((doc.pocFactor.lookup (toString p.poc)).isNone) RateFail.poc ++
  flag (¬ doc.categoryFactor.any fun cf => normalize cf.device == normalize p.category)
    RateFail.category ++
  flag ((doc.ageFactor.lookup (toString p.age)).isNone) RateFail.age ++
  flag (¬ doc.priceFactor.any fun pf =>
      decide (pf.priceLow ≤ p.price) && decide (p.price ≤ pf.priceHigh)) RateFail.price ++
  flag ((doc.multiFactor.lookup (toString p.multi_count)).isNone) RateFail.multi

/-- The Mongo pre-filter of the scan: exact currency equality and
`product_id ∈ productID`. -/
def prefilter (doc : RatingDoc) (p : Payload) : Bool :=
  doc.currency == p.currency && doc.productID.contains p.product_id

/-- The candidate scan of `rate_request`: over the pre-filtered documents,
the first one whose failure-reason list is empty wins. -/
def rate_scan (docs : List RatingDoc) (p : Payload) : Option RatingDoc :=
  (docs.filter (prefilter · p)).find? fun d => (match_with_reasons d p).isEmpty

/-- Locale factor lookup by normalized equality (`next(..., None)`). -/
def localeLookup (doc : RatingDoc) (p : Payload) : Option ℚ :=
  (doc.localeFactor.find? fun f => normalize f.locale == normalize p.locale).map (·.factor)

/-- `pocFactor.get(str(poc))`. -/
def pocLookup (doc : RatingDoc) (p : Payload) : Option ℚ :=
  doc.pocFactor.lookup (toString p.poc)

/-- Category factor lookup by normalized equality (`next(..., None)`). -/
def categoryLookup (doc : RatingDoc) (p : Payload) : Option ℚ :=
  (doc.categoryFactor.find? fun f => normalize f.device == normalize p.category).map (·.factor)

/-- `ageFactor.get(str(age))`. -/
def ageLookup (doc : RatingDoc) (p : Payload) : Option ℚ :=
  doc.ageFactor.lookup (toString p.age)

/-- `rate_request.find_price_factor`: factor of the first range containing
the price, else `None`. -/
def find_price_factor (lst : List PriceFactor) (price : ℚ) : Option ℚ :=
  (lst.find? fun pf => decide (pf.priceLow ≤ price) && decide (price ≤ pf.priceHigh)).map
    (·.factor)

/-- `multiFactor.get(str(multi_count))`. -/
def multiLookup (doc : RatingDoc) (p : Payload) : Option ℚ :=
  doc.multiFactor.lookup (toString p.multi_count)

/-- The rate computation of `rate_request`:
`round(baseFee * localeFactor * pocFactor * categoryFactor * ageFactor *
priceFactor * multiFactor, 2)`.  A missing factor (impossible on a matched
document) yields `none`, modelling the `TypeError` the source would raise. -/
def computeRate (doc : RatingDoc) (p : Payload) : Option ℚ := do
  let lf ← localeLookup doc p
  let pf ← pocLookup doc p
  let cf ← categoryLookup doc p
  let af ← ageLookup doc p
  let prf ← find_price_factor doc.priceFactor p.price
  let mf ← multiLookup doc p
  pure (pyRound2 (doc.baseFee * lf * pf * cf * af * prf * mf))

theorem flag_eq_nil (c : Prop) [Decidable c] (r : RateFail) : flag c r = [] ↔ ¬ c := by
  unfold flag; split_ifs with h <;> simp [h]

/-- The document matches (empty reason list) iff all eight predicates hold. -/
theorem match_with_reasons_eq_nil (doc : RatingDoc) (p : Payload) :
    match_with_reasons doc p = [] ↔
      (doc.currency = p.currency ∧
       p.product_id ∈ doc.productID ∧
       (doc.localeFactor.any fun lf => normalize lf.locale == normalize p.locale) ∧
       (doc.pocFactor.lookup (toString p.poc)).isSome ∧
       (doc.categoryFactor.any fun cf => normalize cf.device == normalize p.category) ∧
       (doc.ageFactor.lookup (toString p.age)).isSome ∧
       (doc.priceFactor.any fun pf =>
         decide (pf.priceLow ≤ p.price) && decide (p.price ≤ pf.priceHigh)) ∧
       (doc.multiFactor.lookup (toString p.multi_count)).isSome) := by
  have hopt : ∀ (o : Option ℚ), (¬ o.isNone = true) ↔ o.isSome = true := by
    intro o; cases o <;> simp
  unfold match_with_reasons
  simp only [List.append_eq_nil, flag_eq_nil, not_not, hopt]
  tauto

/-- A matched document also passes the Mongo pre-filter: `match_with_reasons`
re-checks currency equality and product membership. -/
theorem matched_prefilter (doc : RatingDoc) (p : Payload)
    (h : match_with_reasons doc p = []) : prefilter doc p = true := by
  rw [match_with_reasons_eq_nil] at h
  unfold prefilter
  simp [h.1, h.2.1]

theorem rate_scan_unique (docs : List RatingDoc) (p : Payload) (d : RatingDoc) :
    d ∈ docs → match_with_reasons d p = [] →
    (∀ x ∈ docs, match_with_reasons x p = [] → x = d) →
    rate_scan docs p = some d := by
  induction docs with
  | nil => intro h; simp at h
  | cons a rest ih =>
    intro hmem hmatch huniq
    unfold rate_scan
    rw [List.filter_cons]
    by_cases hpa : prefilter a p = true
    · rw [if_pos hpa, List.find?_cons]
      by_cases hma : (match_with_reasons a p).isEmpty = true
      · have had : a = d := huniq a (List.mem_cons_self a rest) (by simpa using hma)
        rw [hma, had]
      · have hda : d ≠ a := by
          intro h; apply hma; rw [← h, hmatch]; rfl
        have hmem2 : d ∈ rest := by
          rcases List.mem_cons.mp hmem with h | h
          · exact absurd h hda
          · exact h
        rw [Bool.eq_false_iff.mpr hma]
        exact ih hmem2 hmatch (fun x hx hmx => huniq x (List.mem_cons_of_mem _ hx) hmx)
    · rw [if_neg hpa]
      have hda : d ≠ a := by
        intro h; exact hpa (h ▸ matched_prefilter d p hmatch)
      have hmem2 : d ∈ rest := by
        rcases List.mem_cons.mp hmem with h | h
        · exact absurd h hda
        · exact h
      exact ih hmem2 hmatch (fun x hx hmx => huniq x (List.mem_cons_of_mem _ hx) hmx)

/-- A non-matching example document: wrong currency. -/
def exDocA : RatingDoc :=
  { doc_id := "A", currency := "EUR", productID := ["P1"], baseFee := 10
    localeFactor := [⟨"gb", 1⟩], pocFactor := [("12", 1)]
    categoryFactor := [⟨"tv", 1⟩], ageFactor := [("6", 1)]
    priceFactor := [⟨0, 1000, 1⟩], multiFactor := [("1", 1)] }

/-- A fully matching example document. -/
def exDocB : RatingDoc :=
  { doc_id := "B", currency := "GBP", productID := ["P1"], baseFee := 10
    localeFactor := [⟨"gb", 1⟩], pocFactor := [("12", 1)]
    categoryFactor := [⟨"tv", 1⟩], ageFactor := [("6", 1)]
    priceFactor := [⟨0, 1000, 1⟩], multiFactor := [("1", 1)] }

/-- The example payload matched by `exDocB` only. -/
def exPayload : Payload :=
  { product_id := "P1", currency := "GBP", locale := "gb", poc := 12
    category := "tv", age := 6, price := 100, multi_count := 1 }

end RateReq

/-- C5: `rate_request` selects the first pre-filtered candidate whose failure
reason list is empty; consequently when exactly one candidate in the scanned
set satisfies every predicate, that candidate is selected regardless of its
position in the scan order. -/
theorem C5_first_match_selection :
    (∀ (docs : List RateReq.RatingDoc) (p : RateReq.Payload) (d : RateReq.RatingDoc),
      RateReq.rate_scan docs p = some d →
        RateReq.match_with_reasons d p = [] ∧
        ∃ pre post, docs.filter (RateReq.prefilter · p) = pre ++ d :: post ∧
          ∀ x ∈ pre, RateReq.match_with_reasons x p ≠ []) ∧
    (∀ (docs : List RateReq.RatingDoc) (p : RateReq.Payload) (d : RateReq.RatingDoc),
      d ∈ docs → RateReq.match_with_reasons d p = [] →
      (∀ x ∈ docs, RateReq.match_with_reasons x p = [] → x = d) →
      RateReq.rate_scan docs p = some d) := by
  constructor
  · intro docs p d h
    unfold RateReq.rate_scan at h
    rw [List.find?_eq_some] at h
    obtain ⟨hd, pre, post, heq, hall⟩ := h
    refine ⟨by simpa using hd, pre, post, heq, ?_⟩
    intro x hx hnil
    have := hall x hx
    rw [hnil] at this
    simp at this
  · exact fun docs p d => RateReq.rate_scan_unique docs p d

/-- C5 witness: with the unique match `exDocB` listed second, the scan still
selects it. -/
theorem C5_first_match_selection_witness :
    RateReq.rate_scan [RateReq.exDocA, RateReq.exDocB] RateReq.exPayload =
      some RateReq.exDocB :=
  C5_first_match_selection.2 [RateReq.exDocA, RateReq.exDocB] RateReq.exPayload
    RateReq.exDocB (by decide) (by decide) (by decide)

/-- C6: on every matched document the returned rate is
`round2(baseFee * localeFactor * pocFactor * categoryFactor * ageFactor *
priceFactor * multiFactor)`, the factors being looked up by normalized
equality; `"Washing Machine"` and `"washing  machine"` both normalize to
`"washingmachine"`, so such a category matches such a device entry. -/
theorem C6_rate_formula :
    (∀ (doc : RateReq.RatingDoc) (p : RateReq.Payload),
      RateReq.match_with_reasons doc p = [] →
      ∃ lf pf cf af prf mf,
        RateReq.localeLookup doc p = some lf ∧
        RateReq.pocLookup doc p = some pf ∧
        RateReq.categoryLookup doc p = some cf ∧
        RateReq.ageLookup doc p = some af ∧
        RateReq.find_price_factor doc.priceFactor p.price = some prf ∧
        RateReq.multiLookup doc p = some mf ∧
        RateReq.computeRate doc p =
          some (pyRound2 (doc.baseFee * lf * pf * cf * af * prf * mf))) ∧
    RateReq.normalize "Washing Machine" = "washingmachine" ∧
    RateReq.normalize "washing  machine" = "washingmachine" ∧
    (∀ (q : ℚ) (doc : RateReq.RatingDoc) (p : RateReq.Payload),
      doc.categoryFactor = [⟨"washing  machine", q⟩] →
      p.category = "Washing Machine" →
      RateReq.categoryLookup doc p = some q) := by
  refine ⟨?_, by decide, by decide, ?_⟩
  · intro doc p h
    rw [RateReq.match_with_reasons_eq_nil] at h
    obtain ⟨-, -, hloc, hpoc, hcat, hage, hpr, hmul⟩ := h
    have hlf : (RateReq.localeLookup doc p).isSome := by
      unfold RateReq.localeLookup
      rw [List.any_eq_true] at hloc
      simpa [List.find?_isSome] using hloc
    have hcf : (RateReq.categoryLookup doc p).isSome := by
      unfold RateReq.categoryLookup
      rw [List.any_eq_true] at hcat
      simpa [List.find?_isSome] using hcat
    have hprf : (RateReq.find_price_factor doc.priceFactor p.price).isSome := by
      unfold RateReq.find_price_factor
      rw [List.any_eq_true] at hpr
      simpa [List.find?_isSome] using hpr
    obtain ⟨lf, hlf⟩ := Option.isSome_iff_exists.mp hlf
    obtain ⟨pf, hpf⟩ := Option.isSome_iff_exists.mp hpoc
    obtain ⟨cf, hcf⟩ := Option.isSome_iff_exists.mp hcf
    obtain ⟨af, haf⟩ := Option.isSome_iff_exists.mp hage
    obtain ⟨prf, hprf⟩ := Option.isSome_iff_exists.mp hprf
    obtain ⟨mf, hmf⟩ := Option.isSome_iff_exists.mp hmul
    have hpf2 : RateReq.pocLookup doc p = some pf := hpf
    have haf2 : RateReq.ageLookup doc p = some af := haf
    have hmf2 : RateReq.multiLookup doc p = some mf := hmf
    exact ⟨lf, pf, cf, af, prf, mf, hlf, hpf2, hcf, haf2, hprf, hmf2, by
      unfold RateReq.computeRate
      rw [hlf, hpf2, hcf, haf2, hprf, hmf2]
      rfl⟩
  · intro q doc p hcf hcat
    unfold RateReq.categoryLookup
    rw [hcf, hcat]
    simp [RateReq.normalize]

/-- C6 witness: the general rate formula applied to the concrete matched
document `exDocB` and payload. -/
theorem C6_rate_formula_witness :
    ∃ lf pf cf af prf mf,
      RateReq.localeLookup RateReq.exDocB RateReq.exPayload = some lf ∧
      RateReq.pocLookup RateReq.exDocB RateReq.exPayload = some pf ∧
      RateReq.categoryLookup RateReq.exDocB RateReq.exPayload = some cf ∧
      RateReq.ageLookup RateReq.exDocB RateReq.exPayload = some af ∧
      RateReq.find_price_factor RateReq.exDocB.priceFactor RateReq.exPayload.price =
        some prf ∧
      RateReq.multiLookup RateReq.exDocB RateReq.exPayload = some mf ∧
      RateReq.computeRate RateReq.exDocB RateReq.exPayload =
        some (pyRound2 (RateReq.exDocB.baseFee * lf * pf * cf * af * prf * mf)) :=
  C6_rate_formula.1 RateReq.exDocB RateReq.exPayload (by decide)

namespace Assign

/-- A date as used by `calculate_age_in_months` (only year/month/day enter). -/
structure Date where
  year : ℤ
  month : ℤ
  day : ℤ
deriving DecidableEq

/-- `product_assignment.calculate_age_in_months`, with "now" explicit. -/
def calculate_age_in_months (now purchase : Date) : ℤ :=
  max (((now.year - purchase.year) * 12 + (now.month - purchase.month)) -
    (if now.day < purchase.day then 1 else 0)) 0

/-- One entry of an `activeClient` array. -/
structure ClientSource where
  client : String
  source : String
deriving DecidableEq

/-- One criteria block.  Range bounds are optional in the document; the
source reads them with `.get(key, default)`, modelled by `Option.getD`. -/
structure Criteria where
  locale : List String
  guaranteeDuration : List ℤ
  monthsLow : Option ℤ
  monthsHigh : Option ℤ
  msrpLow : Option ℚ
  msrpHigh : Option ℚ
  currency : List String
  products : List String
deriving DecidableEq

/-- A `ProductAssignment` document.  `products` entries are opaque to this
code (returned verbatim, never inspected), so they are modelled by their
identifiers. -/
structure AssignDoc where
  doc_id : String
  activeClient : List ClientSource
  categoryGroup : List String
  criteria : List Criteria
deriving DecidableEq

/-- The validated `ProductAssignmentRequest` fields used by the matcher. -/
structure AssignPayload where
  client : String
  source : String
  category : String
  price : ℚ
  locale : String
  gtee : ℤ
  currency : String
deriving DecidableEq

/-- Failure tags of `criteria_failure_reasons` (the source builds
human-readable strings; which predicate failed is what matters). -/
inductive AssignFail where
  | locale | gtee | months | msrp | currency
deriving DecidableEq

/-- `product_assignment.criteria_failure_reasons`, in source order. -/
def criteria_failure_reasons (crit : Criteria) (locale : String) (gtee : ℤ)
    (age_in_months : ℤ) (price : ℚ) (currency : String) : List AssignFail :=
  (if locale ∉ crit.locale then [AssignFail.locale] else []) ++
  (if gtee ∉ crit.guaranteeDuration then [AssignFail.gtee] else []) ++
  (if ¬ (crit.monthsLow.getD 0 ≤ age_in_months ∧
         age_in_months ≤ crit.monthsHigh.getD 9999) then [AssignFail.months] else []) ++
  (if ¬ (crit.msrpLow.getD 0 ≤ price ∧
         price ≤ crit.msrpHigh.getD 999999) then [AssignFail.msrp] else []) ++
  (if currency ∉ crit.currency then [AssignFail.currency] else [])

/-- The Mongo query of `find_strict_assignment`: `activeClient` contains the
(client, source) pair and `categoryGroup` contains the category. -/
def pre_query (doc : AssignDoc) (p : AssignPayload) : Bool :=
  doc.activeClient.contains ⟨p.client, p.source⟩ && doc.categoryGroup.contains p.category

/-- One element of the `debug_failed` list. -/
structure FailEntry where
  doc_id : String
  criteria_index : ℕ
  failure_reasons : List AssignFail
deriving DecidableEq

/-- The reasons of one block against the payload. -/
def blockReasons (p : AssignPayload) (age : ℤ) (c : Criteria) : List AssignFail :=
  criteria_failure_reasons c p.locale p.gtee age p.price p.currency

/-- Inner loop of `find_strict_assignment`: scan one document's criteria
blocks in array order; the first block with no failure reasons wins,
otherwise every block contributes a `debug_failed` entry. -/
def scanBlocks (did : String) (idx : ℕ) (crits : List Criteria)
    (p : AssignPayload) (age : ℤ) : Option (List String) × List FailEntry :=
  match crits with
  | [] => (none, [])
  | c :: rest =>
    let reasons := blockReasons p age c
    if reasons = [] then (some c.products, [])
    else
      let r := scanBlocks did (idx + 1) rest p age
      (r.1, ⟨did, idx, reasons⟩ :: r.2)

/-- `product_assignment.find_strict_assignment`: scan documents in
store-return order; return the first matching block's products, or
`none` together with the accumulated `debug_failed` entries. -/
def find_strict_assignment (docs : List AssignDoc) (p : AssignPayload)
    (age : ℤ) : Option (String × List String) × List FailEntry :=
  match docs with
  | [] => (none, [])
  | d :: rest =>
    if pre_query d p then
      let r := scanBlocks d.doc_id 0 d.criteria p age
      match r.1 with
      | some prods => (some (d.doc_id, prods), r.2)
      | none =>
        let r2 := find_strict_assignment rest p age
        (r2.1, r.2 ++ r2.2)
    else find_strict_assignment rest p age

/-- The endpoint response shape (success and no-match are both plain
returns; only validation raises, before any lookup). -/
structure AssignResponse where
  doc_id : Option String
  products : List String
  details : List FailEntry
  isError : Bool
deriving DecidableEq

/-- The `product_assignment` endpoint after validation: a no-match outcome
is returned as a normal response with empty products and the full
diagnostic list, not raised. -/
def product_assignment (docs : List AssignDoc) (p : AssignPayload)
    (age : ℤ) : AssignResponse :=
  match find_strict_assignment docs p age with
  | (some (did, prods), _) => ⟨some did, prods, [], false⟩
  | (none, fails) => ⟨none, [], fails, true⟩

/-- All criteria blocks the scan examines, in scan order, tagged with their
document id and in-array index. -/
def examinedBlocks (docs : List AssignDoc) (p : AssignPayload) :
    List (String × ℕ × Criteria) :=
  (docs.filter (pre_query · p)).flatMap fun d =>
    d.criteria.enum.map fun ic => (d.doc_id, ic.1, ic.2)

/-- Whether a tagged block fully matches. -/
def blockMatches (p : AssignPayload) (age : ℤ) (b : String × ℕ × Criteria) : Bool :=
  (blockReasons p age b.2.2).isEmpty

/-- The `debug_failed` entry of a tagged block. -/
def blockFail (p : AssignPayload) (age : ℤ) (b : String × ℕ × Criteria) : FailEntry :=
  ⟨b.1, b.2.1, blockReasons p age b.2.2⟩

theorem scanBlocks_fst (did : String) (p : AssignPayload) (age : ℤ) :
    ∀ (crits : List Criteria) (idx : ℕ),
      (scanBlocks did idx crits p age).1 =
        ((crits.enumFrom idx).find? fun ic => (blockReasons p age ic.2).isEmpty).map
          fun ic => ic.2.products := by
  intro crits
  induction crits with
  | nil => intro idx; rfl
  | cons c rest ih =>
    intro idx
    unfold scanBlocks
    by_cases h : blockReasons p age c = []
    · simp only [h, if_pos rfl]
      rw [List.enumFrom_cons, List.find?_cons]
      have : (blockReasons p age (idx, c).2).isEmpty = true := by simp [h]
      rw [this]
      simp
    · rw [if_neg h]
      rw [List.enumFrom_cons, List.find?_cons]
      have : (blockReasons p age (idx, c).2).isEmpty = false := by
        show (blockReasons p age c).isEmpty = false
        cases hbr : blockReasons p age c with
        | nil => exact absurd hbr h
        | cons x xs => rfl
      rw [this]
      exact ih (idx + 1)

theorem scanBlocks_none (did : String) (p : AssignPayload) (age : ℤ) :
    ∀ (crits : List Criteria) (idx : ℕ),
      (∀ ic ∈ crits.enumFrom idx, blockReasons p age ic.2 ≠ []) →
      scanBlocks did idx crits p age =
        (none, (crits.enumFrom idx).map fun ic =>
          ⟨did, ic.1, blockReasons p age ic.2⟩) := by
  intro crits
  induction crits with
  | nil => intro idx h; rfl
  | cons c rest ih =>
    intro idx h
    have hc : blockReasons p age c ≠ [] := by
      have := h (idx, c) (by rw [List.enumFrom_cons]; exact List.mem_cons_self _ _)
      exact this
    unfold scanBlocks
    rw [if_neg hc]
    have hrest := ih (idx + 1) fun ic hic =>
      h ic (by rw [List.enumFrom_cons]; exact List.mem_cons_of_mem _ hic)
    rw [hrest, List.enumFrom_cons]
    rfl

theorem find_strict_fst (p : AssignPayload) (age : ℤ) :
    ∀ docs : List AssignDoc,
      (find_strict_assignment docs p age).1 =
        ((examinedBlocks docs p).find? (blockMatches p age)).map
          fun b => (b.1, b.2.2.products) := by
  intro docs
  induction docs with
  | nil => rfl
  | cons d rest ih =>
    have hsb := scanBlocks_fst d.doc_id p age d.criteria 0
    rw [show List.enumFrom 0 d.criteria = d.criteria.enum from rfl] at hsb
    have hex : examinedBlocks (d :: rest) p =
        (if pre_query d p then
          d.criteria.enum.map (fun ic => (d.doc_id, ic.1, ic.2)) else []) ++
        examinedBlocks rest p := by
      unfold examinedBlocks
      rw [List.filter_cons]
      by_cases hq : pre_query d p = true
      · rw [if_pos hq, if_pos hq, List.flatMap_cons]
      · rw [if_neg hq, if_neg hq]; rfl
    by_cases hq : pre_query d p = true
    · rw [hex, if_pos hq, List.find?_append, List.find?_map]
      have hcomp : ((blockMatches p age) ∘ fun ic => (d.doc_id, ic.1, ic.2)) =
          fun ic : ℕ × Criteria => (blockReasons p age ic.2).isEmpty := rfl
      rw [hcomp]
      show (find_strict_assignment (d :: rest) p age).1 = _
      unfold find_strict_assignment
      rw [if_pos hq]
      cases hfind : d.criteria.enum.find? fun ic => (blockReasons p age ic.2).isEmpty with
      | none =>
        rw [hfind] at hsb
        simp at hsb
        simp only [hsb, hfind]
        simpa using ih
      | some ic =>
        rw [hfind] at hsb
        simp at hsb
        simp only [hsb, hfind]
        rfl
    · rw [hex, if_neg hq]
      show (find_strict_assignment (d :: rest) p age).1 = _
      unfold find_strict_assignment
      rw [if_neg hq]
      simpa using ih

theorem find_strict_none (p : AssignPayload) (age : ℤ) :
    ∀ docs : List AssignDoc,
      (∀ b ∈ examinedBlocks docs p, blockMatches p age b = false) →
      find_strict_assignment docs p age =
        (none, (examinedBlocks docs p).map (blockFail p age)) := by
  intro docs
  induction docs with
  | nil => intro h; rfl
  | cons d rest ih =>
    intro h
    have hex : examinedBlocks (d :: rest) p =
        (if pre_query d p then
          d.criteria.enum.map (fun ic => (d.doc_id, ic.1, ic.2)) else []) ++
        examinedBlocks rest p := by
      unfold examinedBlocks
      rw [List.filter_cons]
      by_cases hq : pre_query d p = true
      · rw [if_pos hq, if_pos hq, List.flatMap_cons]
      · rw [if_neg hq, if_neg hq]; rfl
    by_cases hq : pre_query d p = true
    · have hdblocks : ∀ ic ∈ d.criteria.enum, blockReasons p age ic.2 ≠ [] := by
        intro ic hic
        have hmem : (d.doc_id, ic.1, ic.2) ∈ examinedBlocks (d :: rest) p := by
          rw [hex, if_pos hq]
          exact List.mem_append_left _ (List.mem_map.mpr ⟨ic, hic, rfl⟩)
        have := h _ hmem
        unfold blockMatches at this
        intro hnil
        rw [show blockReasons p age (d.doc_id, ic.1, ic.2).2.2 = blockReasons p age ic.2
          from rfl, hnil] at this
        simp at this
      have hsb := scanBlocks_none d.doc_id p age d.criteria 0
        (by rw [show List.enumFrom 0 d.criteria = d.criteria.enum from rfl]; exact hdblocks)
      rw [show List.enumFrom 0 d.criteria = d.criteria.enum from rfl] at hsb
      have hrest := ih fun b hb => h b (by rw [hex]; exact List.mem_append_right _ hb)
      show find_strict_assignment (d :: rest) p age = _
      unfold find_strict_assignment
      rw [if_pos hq]
      simp only [hsb, hrest, hex, if_pos hq]
      rw [List.map_append, List.map_map]
      rfl
    · have hrest := ih fun b hb => h b (by rw [hex, if_neg hq]; simpa using hb)
      show find_strict_assignment (d :: rest) p age = _
      unfold find_strict_assignment
      rw [if_neg hq, hrest, hex, if_neg hq]
      rfl

/-- A block fully matches iff all five predicates hold. -/
theorem blockMatches_iff (p : AssignPayload) (age : ℤ) (c : Criteria) :
    (blockReasons p age c).isEmpty = true ↔
      (p.locale ∈ c.locale ∧
       p.gtee ∈ c.guaranteeDuration ∧
       (c.monthsLow.getD 0 ≤ age ∧ age ≤ c.monthsHigh.getD 9999) ∧
       (c.msrpLow.getD 0 ≤ p.price ∧ p.price ≤ c.msrpHigh.getD 999999) ∧
       p.currency ∈ c.currency) := by
  unfold blockReasons criteria_failure_reasons
  rw [List.isEmpty_iff]
  simp only [List.append_eq_nil]
  constructor
  · rintro ⟨⟨⟨⟨h1, h2⟩, h3⟩, h4⟩, h5⟩
    refine ⟨?_, ?_, ?_, ?_, ?_⟩ <;> by_contra hc <;>
      simp_all
  · rintro ⟨h1, h2, h3, h4, h5⟩
    refine ⟨⟨⟨⟨?_, ?_⟩, ?_⟩, ?_⟩, ?_⟩ <;> simp_all

/-- Whether a purchase month is a calendar month. -/
def validMonth (d : Date) : Prop := 1 ≤ d.month ∧ d.month ≤ 12

/-- Chronological order on dates (lexicographic year, month, day). -/
def dateLE (a b : Date) : Prop :=
  a.year < b.year ∨
    (a.year = b.year ∧ (a.month < b.month ∨ (a.month = b.month ∧ a.day ≤ b.day)))

instance : DecidablePred validMonth := fun d => by unfold validMonth; infer_instance

instance (a : Date) : Decidable (dateLE a b) := by unfold dateLE; infer_instance

/-- An example document whose single criteria block fails on locale. -/
def exADoc : AssignDoc :=
  { doc_id := "D1", activeClient := [⟨"c1", "web"⟩], categoryGroup := ["tv"]
    criteria := [{ locale := ["gb"], guaranteeDuration := [12]
                   monthsLow := none, monthsHigh := none
                   msrpLow := none, msrpHigh := none
                   currency := ["GBP"], products := ["P1"] }] }

/-- An example payload whose locale matches no criteria block of `exADoc`. -/
def exAPayload : AssignPayload :=
  { client := "c1", source := "web", category := "tv", price := 500
    locale := "fr", gtee := 12, currency := "GBP" }

end Assign

/-- C7: `find_strict_assignment` returns the products of the first examined
criteria block (records in store-return order, blocks in array order) on
which all five predicates hold; when no block matches, the endpoint returns
an ordinary response with an empty product list and one failure-reason entry
for every block examined, rather than raising. -/
theorem C7_resolve_assignment :
    (∀ (docs : List Assign.AssignDoc) (p : Assign.AssignPayload) (age : ℤ)
       (did : String) (prods : List String) (fs : List Assign.FailEntry),
      Assign.find_strict_assignment docs p age = (some (did, prods), fs) →
      ∃ pre b post,
        Assign.examinedBlocks docs p = pre ++ b :: post ∧
        Assign.blockMatches p age b = true ∧
        (∀ x ∈ pre, Assign.blockMatches p age x = false) ∧
        did = b.1 ∧ prods = b.2.2.products) ∧
    (∀ (docs : List Assign.AssignDoc) (p : Assign.AssignPayload) (age : ℤ),
      (∀ b ∈ Assign.examinedBlocks docs p, Assign.blockMatches p age b = false) →
      Assign.product_assignment docs p age =
        ⟨none, [], (Assign.examinedBlocks docs p).map (Assign.blockFail p age), true⟩ ∧
      ∀ e ∈ (Assign.examinedBlocks docs p).map (Assign.blockFail p age),
        e.failure_reasons ≠ []) ∧
    (∀ (p : Assign.AssignPayload) (age : ℤ) (c : Assign.Criteria),
      (Assign.blockReasons p age c).isEmpty = true ↔
        (p.locale ∈ c.locale ∧
         p.gtee ∈ c.guaranteeDuration ∧
         (c.monthsLow.getD 0 ≤ age ∧ age ≤ c.monthsHigh.getD 9999) ∧
         (c.msrpLow.getD 0 ≤ p.price ∧ p.price ≤ c.msrpHigh.getD 999999) ∧
         p.currency ∈ c.currency)) := by
  refine ⟨?_, ?_, Assign.blockMatches_iff⟩
  · intro docs p age did prods fs heq
    have hfst := Assign.find_strict_fst p age docs
    rw [heq] at hfst
    cases hfind : (Assign.examinedBlocks docs p).find? (Assign.blockMatches p age) with
    | none => rw [hfind] at hfst; simp at hfst
    | some b =>
      rw [hfind] at hfst
      rw [List.find?_eq_some] at hfind
      obtain ⟨hb, pre, post, hsplit, hall⟩ := hfind
      have h2 : some (did, prods) = some (b.1, b.2.2.products) := by simpa using hfst
      have h3 := Option.some.inj h2
      injection h3 with hd hp
      exact ⟨pre, b, post, hsplit, hb, fun x hx => by simpa using hall x hx, hd, hp⟩
  · intro docs p age h
    have hnone := Assign.find_strict_none p age docs h
    constructor
    · unfold Assign.product_assignment
      rw [hnone]
    · intro e he
      obtain ⟨b, hb, rfl⟩ := List.mem_map.mp he
      have hbm := h b hb
      unfold Assign.blockMatches at hbm
      intro hnil
      have hr : Assign.blockReasons p age b.2.2 = [] := hnil
      rw [hr] at hbm
      simp at hbm

/-- C7 witness: with one document whose only block fails the locale
predicate, the endpoint returns the diagnostic response. -/
theorem C7_resolve_assignment_witness :
    Assign.product_assignment [Assign.exADoc] Assign.exAPayload 6 =
      ⟨none, [],
        (Assign.examinedBlocks [Assign.exADoc] Assign.exAPayload).map
          (Assign.blockFail Assign.exAPayload 6), true⟩ :=
  (C7_resolve_assignment.2.1 [Assign.exADoc] Assign.exAPayload 6 (by decide)).1

/-- C8: `calculate_age_in_months` equals the documented formula (month
difference, decremented when the day has not yet been reached, clamped at
zero), is always non-negative, and is antitone in the purchase date. -/
theorem C8_age_in_months :
    (∀ now purchase : Assign.Date,
      Assign.calculate_age_in_months now purchase =
        max (((now.year - purchase.year) * 12 + (now.month - purchase.month)) -
          (if now.day < purchase.day then 1 else 0)) 0) ∧
    (∀ now purchase : Assign.Date,
      0 ≤ Assign.calculate_age_in_months now purchase) ∧
    (∀ now p1 p2 : Assign.Date, Assign.validMonth p1 → Assign.validMonth p2 →
      Assign.dateLE p1 p2 →
      Assign.calculate_age_in_months now p2 ≤ Assign.calculate_age_in_months now p1) := by
  refine ⟨fun _ _ => rfl, fun now purchase => le_max_right _ _, ?_⟩
  intro now p1 p2 h1 h2 hle
  unfold Assign.calculate_age_in_months
  refine max_le_max ?_ le_rfl
  unfold Assign.validMonth at h1 h2
  unfold Assign.dateLE at hle
  split_ifs <;> omega

/-- C8 witness: purchase `2024-03-10` is no older than purchase `2024-01-15`
for any fixed "now". -/
theorem C8_age_in_months_witness :
    Assign.calculate_age_in_months ⟨2024, 7, 20⟩ ⟨2024, 3, 10⟩ ≤
      Assign.calculate_age_in_months ⟨2024, 7, 20⟩ ⟨2024, 1, 15⟩ :=
  C8_age_in_months.2.2 ⟨2024, 7, 20⟩ ⟨2024, 1, 15⟩ ⟨2024, 3, 10⟩
    (by decide) (by decide) (by decide)

namespace Basket

/-- One basket line item (`basket["Basket"]` entries); every field is read
with `.get`, hence optional. -/
structure Item where
  rounded_price_pence : Option ℤ
  rounded_price : Option ℚ
  currency : Option String
  locale : Option String
  client : Option String
  product_id : Option String
  category : Option String
  mode : Option String
  poc : Option ℤ
deriving DecidableEq

/-- `ratebasket._price_pence`: the minor-unit price, falling back to
`int(round(price * 100))` and then to `0`. -/
def price_pence (it : Item) : ℤ :=
  match it.rounded_price_pence with
  | some n => n
  | none =>
    match it.rounded_price with
    | some q => roundHalfEven (q * 100)
    | none => 0

/-- The `appliesTo` filters of a rule; empty lists mean "applies to all". -/
structure AppliesTo where
  currency : List String
  locale : List String
  client : List String
  productIds : List String
  categoryGroups : List String
  mode : Option String
deriving DecidableEq

/-- `in_list_or_empty` with a transform. -/
def in_list_or_empty (val : Option String) (arr : List String)
    (tf : String → String) : Bool :=
  if arr.isEmpty then true
  else match val with
    | none => false
    | some v => (arr.map tf).contains (tf v)

/-- `ratebasket._match_applies_to`: currency is compared upper-cased, client
lower-cased, locale verbatim; `mode` absent or `"any"` matches everything. -/
def match_applies_to (applies : AppliesTo) (it : Item) : Bool :=
  in_list_or_empty it.currency applies.currency pyUpper &&
  in_list_or_empty it.locale applies.locale (fun s => s) &&
  in_list_or_empty it.client applies.client pyLower &&
  (applies.productIds.isEmpty ||
    (match it.product_id with
     | some pid => applies.productIds.contains pid
     | none => false)) &&
  (applies.categoryGroups.isEmpty ||
    (match it.category with
     | some cat => applies.categoryGroups.contains cat
     | none => false)) &&
  (match applies.mode with
   | none => true
   | some m => if m = "any" then true else it.mode == some m)

/-- One component of a grouping key (string- or int-valued item field). -/
inductive GComp where
  | s (v : Option String)
  | i (v : Option ℤ)
deriving DecidableEq

/-- The `constraints` of a rule (`minItems` read with default `0`). -/
structure Constraints where
  sameModeRequired : Bool
  sameTermRequired : Bool
  sameProductIdRequired : Bool
  sameCategoryRequired : Bool
  minItems : ℤ
deriving DecidableEq

/-- `ratebasket._group_key`: the tuple of selected item fields, or the
constant `("ALL",)` key when no flag is set. -/
def group_key (it : Item) (c : Constraints) : List GComp :=
  let key :=
    (if c.sameModeRequired then [GComp.s it.mode] else []) ++
    (if c.sameTermRequired then [GComp.i it.poc] else []) ++
    (if c.sameProductIdRequired then [GComp.s it.product_id] else []) ++
    (if c.sameCategoryRequired then [GComp.s it.category] else [])
  if key.isEmpty then [GComp.s (some "ALL")] else key

/-- `groups.setdefault(k, []).append(it)` on an insertion-ordered dict,
modelled as an association list: append to the first bucket with the key,
else add a new bucket at the end. -/
def groupInsert (acc : List (List GComp × List Item)) (k : List GComp)
    (it : Item) : List (List GComp × List Item) :=
  match acc with
  | [] => [(k, [it])]
  | (k0, its) :: rest =>
    if k0 = k then (k0, its ++ [it]) :: rest
    else (k0, its) :: groupInsert rest k it

/-- The per-rule grouping of items, in dict insertion order. -/
def groupsOf (items : List Item) (c : Constraints) :
    List (List GComp × List Item) :=
  items.foldl (fun acc it => groupInsert acc (group_key it c) it) []

/-- The distinct grouping keys in first-occurrence order. -/
def keysOf (c : Constraints) (items : List Item) : List (List GComp) :=
  items.foldl (fun ks it =>
    if group_key it c ∈ ks then ks else ks ++ [group_key it c]) []

/-- One `ruleParams.tiers` entry of a TIERED_PERCENT rule. -/
structure TierSpec where
  minItems : ℤ
  percentOff : ℤ
deriving DecidableEq

/-- One normalized FIXED_PRICE_BUNDLE tier. -/
structure Tier where
  bundleSize : ℤ
  fixedPricePence : ℤ
  capBundles : ℤ
deriving DecidableEq

/-- One raw `ruleParams.bundles` entry (fields read with default `0`). -/
structure RawBundle where
  bundleSize : ℤ
  fixedPricePence : ℤ
  capBundles : ℤ
deriving DecidableEq

/-- The `ruleParams` of a rule, with the source defaults folded in
(`applyBase="subtotal"`, numeric fields `0`, `repeatable=True`). -/
structure RuleParams where
  tiers : List TierSpec
  applyBase : String
  capAmountPence : ℤ
  bundles : Option (List RawBundle)
  bundleSize : ℤ
  fixedPricePence : ℤ
  capBundles : ℤ
  repeatable : Bool
deriving DecidableEq

/-- A discount rule (only `active=True` rules reach evaluation). -/
structure Rule where
  rule_id : String
  name : String
  priority : ℤ
  ruleType : String
  appliesTo : AppliesTo
  constraints : Constraints
  ruleParams : RuleParams
deriving DecidableEq

/-- Percent selection of `_apply_tiered_percent`: highest `percentOff` among
tiers (scanned in the given order) whose `minItems ≤ count`. -/
def percentFor (tiersSorted : List TierSpec) (count : ℕ) : ℤ :=
  tiersSorted.foldl
    (fun acc t => if (count : ℤ) ≥ t.minItems then max acc t.percentOff else acc) 0

/-- Group discount of `_apply_tiered_percent`: `int(subtotal * percent / 100)`
(Python truncating conversion of the exact quotient, `Int.tdiv` here),
skipped for non-positive percent or unsupported `applyBase`. -/
def tieredGroupDiscount (tiersSorted : List TierSpec) (applyBase : String)
    (gitems : List Item) : ℤ :=
  let count := gitems.length
  let percent := percentFor tiersSorted count
  if percent ≤ 0 then 0
  else if applyBase ≠ "subtotal" then 0
  else Int.tdiv ((gitems.map price_pence).sum * percent) 100

/-- `ratebasket._apply_tiered_percent` (discount only; the explanation string
is presentation-only). -/
def apply_tiered_percent (r : Rule) (items : List Item) : ℤ :=
  let tiersSorted := r.ruleParams.tiers.insertionSort
    (fun a b => a.minItems ≤ b.minItems)
  let total := ((groupsOf items r.constraints).map
    (fun kg => tieredGroupDiscount tiersSorted r.ruleParams.applyBase kg.2)).sum
  if r.ruleParams.capAmountPence > 0 ∧ total > r.ruleParams.capAmountPence then
    r.ruleParams.capAmountPence
  else total

/-- Tier normalization of `_apply_fixed_price_bundle`: a non-empty `bundles`
list is filtered to positive sizes/prices and sorted by `bundleSize`
descending; otherwise the single-tier fields are used.  Returns the tier
list and the smallest bundle size, or `none` for an invalid configuration
(which yields discount 0). -/
def normalizeTiers (params : RuleParams) : Option (List Tier × ℤ) :=
  match params.bundles with
  | some (b :: bs) =>
    let tiers := ((b :: bs).filter
        (fun t => decide (t.bundleSize > 0) && decide (t.fixedPricePence > 0))).map
      (fun t => Tier.mk t.bundleSize t.fixedPricePence t.capBundles)
    match tiers.insertionSort (fun a b => b.bundleSize ≤ a.bundleSize) with
    | [] => none
    | t :: ts => some (t :: ts, ((t :: ts).map Tier.bundleSize).foldl min t.bundleSize)
  | _ =>
    if params.bundleSize ≤ 0 ∨ params.fixedPricePence ≤ 0 then none
    else some ([⟨max 1 params.bundleSize, params.fixedPricePence, params.capBundles⟩],
      max 1 params.bundleSize)

/-- The inner tier scan of the repeatable loop: the first tier (in
descending-size order) with enough remaining items and `capBundles` room. -/
def findTierAux (tiers : List Tier) (used : List ℤ) (remaining : ℤ)
    (i : ℕ) : Option (ℕ × Tier) :=
  match tiers with
  | [] => none
  | t :: ts =>
    if remaining < t.bundleSize then findTierAux ts used remaining (i + 1)
    else if t.capBundles > 0 ∧ used.getD i 0 ≥ t.capBundles then
      findTierAux ts used remaining (i + 1)
    else some (i, t)

/-- The repeatable greedy packing loop (`while True` over the cursor),
fuel-indexed; each iteration consumes one bundle and restarts the tier scan
from the largest tier.  Returns the total discount and the consumed bundles. -/
def packLoop (tiers : List Tier) (smallest : ℤ) :
    ℕ → List ℤ → List ℤ → ℤ × List (List ℤ)
  | 0, _, _ => (0, [])
  | fuel + 1, used, prices =>
    if (prices.length : ℤ) < smallest then (0, [])
    else match findTierAux tiers used (prices.length : ℤ) 0 with
      | none => (0, [])
      | some (ti, t) =>
        let block := prices.take t.bundleSize.toNat
        let disc := max 0 (block.sum - t.fixedPricePence)
        let rest := packLoop tiers smallest fuel
          (used.set ti (used.getD ti 0 + 1)) (prices.drop t.bundleSize.toNat)
        (disc + rest.1, block :: rest.2)

/-- The non-repeatable branch: the single best tier applied once to the
top-priced items. -/
def bestSingleDiscount (tiers : List Tier) (prices : List ℤ) : ℤ :=
  tiers.foldl (fun best t =>
    if (prices.length : ℤ) < t.bundleSize then best
    else
      let disc := max 0 ((prices.take t.bundleSize.toNat).sum - t.fixedPricePence)
      if disc > best then disc else best) 0

/-- Sort minor-unit prices descending (a stable sort, like Python sorted). -/
def sortDesc (l : List ℤ) : List ℤ := l.insertionSort (fun a b => b ≤ a)

/-- The group body of `_apply_fixed_price_bundle`: size check on the full
group count, then packing over the positive prices sorted descending. -/
def fpbGroupDiscount (tiers : List Tier) (smallest : ℤ) (minItemsReq : ℤ)
    (repeatable : Bool) (gitems : List Item) : ℤ :=
  if (gitems.length : ℤ) < max minItemsReq smallest then 0
  else
    let prices := sortDesc ((gitems.map price_pence).filter (fun x => decide (0 < x)))
    if prices.isEmpty then 0
    else if repeatable then
      (packLoop tiers smallest (prices.length + 1)
        (List.replicate tiers.length 0) prices).1
    else bestSingleDiscount tiers prices

/-- `ratebasket._apply_fixed_price_bundle` (discount only). -/
def apply_fixed_price_bundle (r : Rule) (items : List Item) : ℤ :=
  match normalizeTiers r.ruleParams with
  | none => 0
  | some (tiers, smallest) =>
    ((groupsOf items r.constraints).map
      (fun kg => fpbGroupDiscount tiers smallest r.constraints.minItems
        r.ruleParams.repeatable kg.2)).sum

/-- The per-rule evaluation result (explanation string omitted). -/
structure RuleResult where
  rule_id : String
  name : String
  priority : ℤ
  ruleType : String
  discount : ℤ
deriving DecidableEq

/-- `ratebasket._evaluate_rule`: filter by `appliesTo`, dispatch on the
trimmed upper-cased rule type, unknown types yield discount 0. -/
def evaluate_rule (r : Rule) (items : List Item) : RuleResult :=
  let matched := items.filter (match_applies_to r.appliesTo)
  let rkind := pyUpper (pyStrip r.ruleType)
  let discount :=
    if rkind = "TIERED_PERCENT" then apply_tiered_percent r matched
    else if rkind = "FIXED_PRICE_BUNDLE" then apply_fixed_price_bundle r matched
    else 0
  ⟨r.rule_id, r.name, r.priority, r.ruleType, discount⟩

/-- The sort order of `sorted(results, key=lambda rr: (-rr.discount,
-rr.priority))`: discount descending, then priority descending. -/
def ruleLE (a b : RuleResult) : Prop :=
  b.discount < a.discount ∨ (a.discount = b.discount ∧ b.priority ≤ a.priority)

instance : DecidableRel ruleLE := fun a b => by unfold ruleLE; infer_instance

/-- Best-rule selection: the first result with positive discount in the
sorted order. -/
def choose_best (results : List RuleResult) : Option RuleResult :=
  (results.insertionSort ruleLE).find? fun r => decide (r.discount > 0)

/-- The computed part of the `/basket/rate` response. -/
structure RBResponse where
  subtotal : ℤ
  results : List RuleResult
  best : Option RuleResult
  discount : ℤ
  final_total : ℤ
deriving DecidableEq

/-- The pure computation of `rate_basket`: subtotal over all items, one
result per active rule, best by discount then priority, clamped final
total. -/
def rate_basket (items : List Item) (rules : List Rule) : RBResponse :=
  let subtotal := (items.map price_pence).sum
  let results := rules.map fun r => evaluate_rule r items
  let best := choose_best results
  let discount := match best with | some b => b.discount | none => 0
  ⟨subtotal, results, best, discount, max 0 (subtotal - discount)⟩

/-- The basket record fields the summary write touches. -/
structure BasketRecord where
  items : List Item
  subtotal : Option ℤ
  final_total : Option ℤ
  discount : Option ℤ
  best_rule : Option RuleResult
deriving DecidableEq

/-- The endpoint including the best-effort summary write: the write may
fail (`persistFails`), in which case the exception is swallowed and the
record is left unchanged; the response is computed before and independently
of the write. -/
def rate_basket_endpoint (b : BasketRecord) (rules : List Rule)
    (persistFails : Bool) : RBResponse × BasketRecord :=
  let resp := rate_basket b.items rules
  let b2 :=
    if persistFails then b
    else { b with subtotal := some resp.subtotal,
                  final_total := some resp.final_total,
                  discount := some resp.discount,
                  best_rule := resp.best }
  (resp, b2)

instance : IsTotal RuleResult ruleLE :=
  ⟨by intro a b; unfold ruleLE; omega⟩

instance : IsTrans RuleResult ruleLE :=
  ⟨by intro a b c hab hbc; unfold ruleLE at *; omega⟩

/-- The selected rule has the greatest positive discount, ties broken by
higher priority. -/
theorem choose_best_some (results : List RuleResult) (b : RuleResult)
    (h : choose_best results = some b) :
    b ∈ results ∧ 0 < b.discount ∧
    ∀ r ∈ results, 0 < r.discount →
      r.discount ≤ b.discount ∧ (r.discount = b.discount → r.priority ≤ b.priority) := by
  unfold choose_best at h
  have hperm := List.perm_insertionSort ruleLE results
  have hsorted := List.sorted_insertionSort ruleLE results
  rw [List.find?_eq_some] at h
  obtain ⟨hb, pre, post, hsplit, hall⟩ := h
  have hbd : 0 < b.discount := by simpa using hb
  have hbmem : b ∈ results := by
    rw [← hperm.mem_iff, hsplit]
    exact List.mem_append_right _ (List.mem_cons_self _ _)
  refine ⟨hbmem, hbd, ?_⟩
  intro r hr hrd
  have hrs : r ∈ List.insertionSort ruleLE results := hperm.mem_iff.mpr hr
  rw [hsplit] at hrs
  rcases List.mem_append.mp hrs with hpre | hcons
  · have := hall r hpre
    simp at this
    omega
  · rcases List.mem_cons.mp hcons with rfl | hpost
    · omega
    · rw [hsplit] at hsorted
      have hpw := (List.pairwise_append.mp hsorted).2.1
      have hle : ruleLE b r := (List.pairwise_cons.mp hpw).1 r hpost
      unfold ruleLE at hle
      omega

/-- No rule is selected iff no rule yields a positive discount. -/
theorem choose_best_none (results : List RuleResult)
    (h : choose_best results = none) : ∀ r ∈ results, r.discount ≤ 0 := by
  unfold choose_best at h
  rw [List.find?_eq_none] at h
  intro r hr
  have := h r ((List.perm_insertionSort ruleLE results).mem_iff.mpr hr)
  simpa using this

/-- Five identically priced example items. -/
def exItems : List Item :=
  List.replicate 5 ⟨some 1000, none, none, none, none, none, none, none, none⟩

/-- Example tiered rule, 10% from one item, priority 1. -/
def exRuleA : Rule :=
  { rule_id := "A", name := "A", priority := 1, ruleType := "TIERED_PERCENT"
    appliesTo := ⟨[], [], [], [], [], none⟩
    constraints := ⟨false, false, false, false, 0⟩
    ruleParams := { tiers := [⟨1, 10⟩], applyBase := "subtotal", capAmountPence := 0
                    bundles := none, bundleSize := 0, fixedPricePence := 0
                    capBundles := 0, repeatable := true } }

/-- Example tiered rule identical to `exRuleA` but priority 5. -/
def exRuleB : Rule :=
  { exRuleA with rule_id := "B", name := "B", priority := 5 }

/-- `groupInsert` on an association list in canonical key/bucket form. -/
theorem groupInsert_canon (f : List GComp → List Item) (it : Item) (k : List GComp) :
    ∀ ks : List (List GComp), ks.Nodup →
      groupInsert (ks.map fun k0 => (k0, f k0)) k it =
        if k ∈ ks then
          ks.map fun k0 => (k0, if k0 = k then f k0 ++ [it] else f k0)
        else (ks.map fun k0 => (k0, f k0)) ++ [(k, [it])] := by
  intro ks
  induction ks with
  | nil => intro _; simp [groupInsert]
  | cons k0 ks ih =>
    intro hnd
    obtain ⟨hk0, hnd2⟩ := List.nodup_cons.mp hnd
    rw [List.map_cons]
    show groupInsert ((k0, f k0) :: ks.map fun k1 => (k1, f k1)) k it = _
    unfold groupInsert
    by_cases hk : k0 = k
    · subst hk
      rw [if_pos rfl, if_pos (List.mem_cons_self _ _), List.map_cons, if_pos rfl]
      congr 1
      refine (List.map_congr_left ?_).symm
      intro k1 hk1
      have : k1 ≠ k0 := fun h => hk0 (h ▸ hk1)
      rw [if_neg this]
    · rw [if_neg hk, ih hnd2]
      by_cases hmem : k ∈ ks
      · rw [if_pos hmem, if_pos (List.mem_cons.mpr (Or.inr hmem)), List.map_cons,
          if_neg hk]
      · rw [if_neg hmem,
          if_neg (fun h => (List.mem_cons.mp h).elim (fun h2 => hk h2.symm) hmem)]
        rfl

/-- Keys already collected stay collected. -/
theorem keysOf_fold_mono (c : Constraints) :
    ∀ (l : List Item) (ks : List (List GComp)) (k : List GComp), k ∈ ks →
      k ∈ l.foldl (fun ks it =>
        if group_key it c ∈ ks then ks else ks ++ [group_key it c]) ks := by
  intro l
  induction l with
  | nil => intro ks k h; exact h
  | cons it rest ih =>
    intro ks k h
    rw [List.foldl_cons]
    apply ih
    by_cases hmem : group_key it c ∈ ks
    · rwa [if_pos hmem]
    · rw [if_neg hmem]; exact List.mem_append_left _ h

/-- Every item's key is collected. -/
theorem mem_keysOf_fold (c : Constraints) :
    ∀ (l : List Item) (ks : List (List GComp)) (x : Item), x ∈ l →
      group_key x c ∈ l.foldl (fun ks it =>
        if group_key it c ∈ ks then ks else ks ++ [group_key it c]) ks := by
  intro l
  induction l with
  | nil => intro ks x h; cases h
  | cons it rest ih =>
    intro ks x hx
    rw [List.foldl_cons]
    rcases List.mem_cons.mp hx with rfl | hx2
    · apply keysOf_fold_mono
      by_cases hmem : group_key x c ∈ ks
      · rwa [if_pos hmem]
      · rw [if_neg hmem]
        exact List.mem_append_right _ (List.mem_singleton.mpr rfl)
    · exact ih _ x hx2

/-- The collected key list has no duplicates. -/
theorem keysOf_fold_nodup (c : Constraints) :
    ∀ (l : List Item) (ks : List (List GComp)), ks.Nodup →
      (l.foldl (fun ks it =>
        if group_key it c ∈ ks then ks else ks ++ [group_key it c]) ks).Nodup := by
  intro l
  induction l with
  | nil => intro ks h; exact h
  | cons it rest ih =>
    intro ks h
    rw [List.foldl_cons]
    apply ih
    by_cases hmem : group_key it c ∈ ks
    · rwa [if_pos hmem]
    · rw [if_neg hmem]
      simp [List.nodup_append, h, hmem]

theorem keysOf_nodup (c : Constraints) (items : List Item) : (keysOf c items).Nodup :=
  keysOf_fold_nodup c items [] List.nodup_nil

theorem mem_keysOf (c : Constraints) (items : List Item) (x : Item) (hx : x ∈ items) :
    group_key x c ∈ keysOf c items :=
  mem_keysOf_fold c items [] x hx

/-- One insertion step preserves the canonical form of the grouping state. -/
theorem groups_state_step (c : Constraints) (done : List Item) (it : Item) :
    groupInsert
      ((keysOf c done).map fun k =>
        (k, done.filter fun x => decide (group_key x c = k)))
      (group_key it c) it =
    (keysOf c (done ++ [it])).map fun k =>
      (k, (done ++ [it]).filter fun x => decide (group_key x c = k)) := by
  have hkeys : keysOf c (done ++ [it]) =
      (if group_key it c ∈ keysOf c done then keysOf c done
       else keysOf c done ++ [group_key it c]) := by
    unfold keysOf
    rw [List.foldl_append]
    rfl
  have hfilter : ∀ k, (done ++ [it]).filter (fun x => decide (group_key x c = k)) =
      done.filter (fun x => decide (group_key x c = k)) ++
        (if group_key it c = k then [it] else []) := by
    intro k
    rw [List.filter_append]
    congr 1
    by_cases h : group_key it c = k <;> simp [h]
  rw [groupInsert_canon _ it _ _ (keysOf_nodup c done)]
  by_cases hmem : group_key it c ∈ keysOf c done
  · rw [if_pos hmem, hkeys, if_pos hmem]
    refine List.map_congr_left ?_
    intro k hk
    rw [hfilter k]
    by_cases hkk : k = group_key it c
    · subst hkk; rw [if_pos rfl, if_pos rfl]
    · rw [if_neg hkk, if_neg (fun h => hkk h.symm), List.append_nil]
  · rw [if_neg hmem, hkeys, if_neg hmem, List.map_append]
    congr 1
    · refine List.map_congr_left ?_
      intro k hk
      rw [hfilter k]
      have hkk : group_key it c ≠ k := fun h => hmem (h ▸ hk)
      rw [if_neg hkk, List.append_nil]
    · rw [List.map_singleton]
      have hnil : done.filter (fun x => decide (group_key x c = group_key it c)) = [] := by
        rw [List.filter_eq_nil_iff]
        intro x hx
        simp only [decide_eq_true_eq]
        intro hkey
        exact hmem (hkey ▸ mem_keysOf c done x hx)
      rw [hfilter (group_key it c), hnil, if_pos rfl]
      rfl

/-- The grouping fold in closed form. -/
theorem groupsOf_fold (c : Constraints) :
    ∀ (rest done : List Item),
      List.foldl (fun acc it => groupInsert acc (group_key it c) it)
        ((keysOf c done).map fun k =>
          (k, done.filter fun x => decide (group_key x c = k))) rest =
      (keysOf c (done ++ rest)).map fun k =>
        (k, (done ++ rest).filter fun x => decide (group_key x c = k)) := by
  intro rest
  induction rest with
  | nil => intro done; rw [List.append_nil]; rfl
  | cons it rest ih =>
    intro done
    rw [List.foldl_cons, groups_state_step c done it, ih (done ++ [it]),
      List.append_assoc]
    rfl

/-- The dict grouping of `_apply_tiered_percent`/`_apply_fixed_price_bundle`:
one bucket per distinct key in first-occurrence order, each bucket being the
sublist of items with that key. -/
theorem groupsOf_eq (c : Constraints) (items : List Item) :
    groupsOf items c =
      (keysOf c items).map fun k =>
        (k, items.filter fun x => decide (group_key x c = k)) := by
  have h := groupsOf_fold c items []
  simpa [keysOf] using h

theorem percent_fold_ge (n : ℕ) :
    ∀ (l : List TierSpec) (acc : ℤ),
      acc ≤ l.foldl (fun a t =>
        if (n : ℤ) ≥ t.minItems then max a t.percentOff else a) acc := by
  intro l
  induction l with
  | nil => intro acc; exact le_refl acc
  | cons t rest ih =>
    intro acc
    rw [List.foldl_cons]
    refine le_trans ?_ (ih _)
    by_cases h : (n : ℤ) ≥ t.minItems
    · rw [if_pos h]; exact le_max_left _ _
    · rw [if_neg h]

theorem percent_fold_ub (n : ℕ) :
    ∀ (l : List TierSpec) (acc : ℤ) (t : TierSpec), t ∈ l → t.minItems ≤ (n : ℤ) →
      t.percentOff ≤ l.foldl (fun a t =>
        if (n : ℤ) ≥ t.minItems then max a t.percentOff else a) acc := by
  intro l
  induction l with
  | nil => intro acc t h; cases h
  | cons t0 rest ih =>
    intro acc t ht hsat
    rw [List.foldl_cons]
    rcases List.mem_cons.mp ht with rfl | ht2
    · rw [if_pos hsat]
      exact le_trans (le_max_right _ _) (percent_fold_ge n rest _)
    · exact ih _ t ht2 hsat

theorem percent_fold_attain (n : ℕ) :
    ∀ (l : List TierSpec) (acc : ℤ),
      l.foldl (fun a t =>
        if (n : ℤ) ≥ t.minItems then max a t.percentOff else a) acc = acc ∨
      ∃ t ∈ l, t.minItems ≤ (n : ℤ) ∧ t.percentOff =
        l.foldl (fun a t =>
          if (n : ℤ) ≥ t.minItems then max a t.percentOff else a) acc := by
  intro l
  induction l with
  | nil => intro acc; exact Or.inl rfl
  | cons t0 rest ih =>
    intro acc
    rw [List.foldl_cons]
    by_cases h : (n : ℤ) ≥ t0.minItems
    · rw [if_pos h]
      rcases ih (max acc t0.percentOff) with heq | ⟨t, ht, hsat, hval⟩
      · rcases max_choice acc t0.percentOff with hm | hm
        · exact Or.inl (by rw [heq, hm])
        · exact Or.inr ⟨t0, List.mem_cons_self _ _, h, by rw [heq, hm]⟩
      · exact Or.inr ⟨t, List.mem_cons_of_mem _ ht, hsat, hval⟩
    · rw [if_neg h]
      rcases ih acc with heq | ⟨t, ht, hsat, hval⟩
      · exact Or.inl heq
      · exact Or.inr ⟨t, List.mem_cons_of_mem _ ht, hsat, hval⟩

theorem findTierAux_mem_le :
    ∀ (tiers : List Tier) (used : List ℤ) (rem : ℤ) (i ti : ℕ) (t : Tier),
      findTierAux tiers used rem i = some (ti, t) → t ∈ tiers ∧ t.bundleSize ≤ rem := by
  intro tiers
  induction tiers with
  | nil => intro used rem i ti t h; simp [findTierAux] at h
  | cons t0 ts ih =>
    intro used rem i ti t h
    unfold findTierAux at h
    by_cases h1 : rem < t0.bundleSize
    · rw [if_pos h1] at h
      obtain ⟨hm, hle⟩ := ih used rem (i + 1) ti t h
      exact ⟨List.mem_cons_of_mem _ hm, hle⟩
    · rw [if_neg h1] at h
      by_cases h2 : t0.capBundles > 0 ∧ used.getD i 0 ≥ t0.capBundles
      · rw [if_pos h2] at h
        obtain ⟨hm, hle⟩ := ih used rem (i + 1) ti t h
        exact ⟨List.mem_cons_of_mem _ hm, hle⟩
      · rw [if_neg h2] at h
        have hpair := Option.some.inj h
        rw [Prod.mk.injEq] at hpair
        refine ⟨hpair.2 ▸ List.mem_cons_self _ _, hpair.2 ▸ not_lt.mp h1⟩

/-- `findTierAux` returns the first tier, in the given (descending-size)
order, that has enough remaining items and `capBundles` room. -/
theorem findTierAux_first :
    ∀ (tiers : List Tier) (used : List ℤ) (rem : ℤ) (i ti : ℕ) (t : Tier),
      findTierAux tiers used rem i = some (ti, t) →
      ∃ j, ti = i + j ∧ tiers.get? j = some t ∧
        t.bundleSize ≤ rem ∧
        ¬(t.capBundles > 0 ∧ used.getD ti 0 ≥ t.capBundles) ∧
        ∀ j2, j2 < j → ∀ t2, tiers.get? j2 = some t2 →
          rem < t2.bundleSize ∨
            (t2.capBundles > 0 ∧ used.getD (i + j2) 0 ≥ t2.capBundles) := by
  intro tiers
  induction tiers with
  | nil => intro used rem i ti t h; simp [findTierAux] at h
  | cons t0 ts ih =>
    intro used rem i ti t h
    unfold findTierAux at h
    by_cases h1 : rem < t0.bundleSize
    · rw [if_pos h1] at h
      obtain ⟨j, hji, hget, hle, hcap, hfirst⟩ := ih used rem (i + 1) ti t h
      refine ⟨j + 1, by omega, by simpa using hget, hle, hcap, ?_⟩
      intro j2 hj2 t2 hget2
      cases j2 with
      | zero =>
        have ht2 : t0 = t2 := by simpa using hget2
        exact Or.inl (ht2 ▸ h1)
      | succ j2 =>
        have := hfirst j2 (by omega) t2 (by simpa using hget2)
        rcases this with hl | hr
        · exact Or.inl hl
        · exact Or.inr (by rwa [show i + (j2 + 1) = i + 1 + j2 from by omega])
    · rw [if_neg h1] at h
      by_cases h2 : t0.capBundles > 0 ∧ used.getD i 0 ≥ t0.capBundles
      · rw [if_pos h2] at h
        obtain ⟨j, hji, hget, hle, hcap, hfirst⟩ := ih used rem (i + 1) ti t h
        refine ⟨j + 1, by omega, by simpa using hget, hle, hcap, ?_⟩
        intro j2 hj2 t2 hget2
        cases j2 with
        | zero =>
          have ht2 : t0 = t2 := by simpa using hget2
          exact Or.inr (by rw [← ht2]; simpa using h2)
        | succ j2 =>
          have := hfirst j2 (by omega) t2 (by simpa using hget2)
          rcases this with hl | hr
          · exact Or.inl hl
          · exact Or.inr (by rwa [show i + (j2 + 1) = i + 1 + j2 from by omega])
      · rw [if_neg h2] at h
        have hpair := Option.some.inj h
        rw [Prod.mk.injEq] at hpair
        obtain ⟨hti, ht⟩ := hpair
        subst hti; subst ht
        exact ⟨0, by omega, rfl, not_lt.mp h1, h2, fun j2 hj2 _ _ => absurd hj2 (by omega)⟩

/-- The fuel argument of `packLoop` is irrelevant once it exceeds the number
of remaining prices: the imperative `while` loop terminates. -/
theorem packLoop_fuel (tiers : List Tier) (smallest : ℤ)
    (hpos : ∀ t ∈ tiers, 0 < t.bundleSize) :
    ∀ (f1 : ℕ) (prices used : List ℤ) (f2 : ℕ),
      prices.length < f1 → prices.length < f2 →
      packLoop tiers smallest f1 used prices =
        packLoop tiers smallest f2 used prices := by
  intro f1
  induction f1 with
  | zero => intro prices used f2 h1 _; omega
  | succ f1 ih =>
    intro prices used f2 h1 h2
    cases f2 with
    | zero => omega
    | succ f2 =>
      simp only [packLoop]
      by_cases hsm : (prices.length : ℤ) < smallest
      · rw [if_pos hsm, if_pos hsm]
      · rw [if_neg hsm, if_neg hsm]
        cases hft : findTierAux tiers used (prices.length : ℤ) 0 with
        | none => rfl
        | some pair =>
          obtain ⟨ti, t⟩ := pair
          obtain ⟨hmem, hle⟩ := findTierAux_mem_le tiers used _ 0 ti t hft
          have hbs := hpos t hmem
          have hlen1 : (prices.drop t.bundleSize.toNat).length < f1 := by
            rw [List.length_drop]; omega
          have hlen2 : (prices.drop t.bundleSize.toNat).length < f2 := by
            rw [List.length_drop]; omega
          simp only
          rw [ih (prices.drop t.bundleSize.toNat)
            (used.set ti (used.getD ti 0 + 1)) f2 hlen1 hlen2]

/-- One iteration of the repeatable greedy loop, at the canonical fuel. -/
theorem packLoop_step (tiers : List Tier) (smallest : ℤ)
    (hpos : ∀ t ∈ tiers, 0 < t.bundleSize) (used prices : List ℤ) :
    packLoop tiers smallest (prices.length + 1) used prices =
      (if (prices.length : ℤ) < smallest then (0, [])
       else
        match findTierAux tiers used (prices.length : ℤ) 0 with
        | none => (0, [])
        | some (ti, t) =>
          let block := prices.take t.bundleSize.toNat
          let rest := packLoop tiers smallest
            ((prices.drop t.bundleSize.toNat).length + 1)
            (used.set ti (used.getD ti 0 + 1)) (prices.drop t.bundleSize.toNat)
          (max 0 (block.sum - t.fixedPricePence) + rest.1, block :: rest.2)) := by
  have hunfold : packLoop tiers smallest (prices.length + 1) used prices =
      (if (prices.length : ℤ) < smallest then (0, [])
       else
        match findTierAux tiers used (prices.length : ℤ) 0 with
        | none => (0, [])
        | some (ti, t) =>
          let block := prices.take t.bundleSize.toNat
          let rest := packLoop tiers smallest prices.length
            (used.set ti (used.getD ti 0 + 1)) (prices.drop t.bundleSize.toNat)
          (max 0 (block.sum - t.fixedPricePence) + rest.1, block :: rest.2)) := rfl
  rw [hunfold]
  by_cases hsm : (prices.length : ℤ) < smallest
  · rw [if_pos hsm, if_pos hsm]
  · rw [if_neg hsm, if_neg hsm]
    cases hft : findTierAux tiers used (prices.length : ℤ) 0 with
    | none => rfl
    | some pair =>
      obtain ⟨ti, t⟩ := pair
      obtain ⟨hmem, hle⟩ := findTierAux_mem_le tiers used _ 0 ti t hft
      have hbs := hpos t hmem
      have hlen1 : (prices.drop t.bundleSize.toNat).length < prices.length := by
        rw [List.length_drop]; omega
      simp only
      rw [packLoop_fuel tiers smallest hpos prices.length
        (prices.drop t.bundleSize.toNat) (used.set ti (used.getD ti 0 + 1))
        ((prices.drop t.bundleSize.toNat).length + 1) hlen1 (by omega)]

/-- Every price inside every consumed bundle comes from the (positive)
price list. -/
theorem packLoop_bundles_pos (tiers : List Tier) (smallest : ℤ) :
    ∀ (fuel : ℕ) (used prices : List ℤ), (∀ x ∈ prices, 0 < x) →
      ∀ blk ∈ (packLoop tiers smallest fuel used prices).2, ∀ x ∈ blk, 0 < x := by
  intro fuel
  induction fuel with
  | zero => intro used prices hp blk hblk; simp [packLoop] at hblk
  | succ fuel ih =>
    intro used prices hp blk hblk
    simp only [packLoop] at hblk
    by_cases hsm : (prices.length : ℤ) < smallest
    · rw [if_pos hsm] at hblk; simp at hblk
    · rw [if_neg hsm] at hblk
      cases hft : findTierAux tiers used (prices.length : ℤ) 0 with
      | none => rw [hft] at hblk; simp at hblk
      | some pair =>
        obtain ⟨ti, t⟩ := pair
        rw [hft] at hblk
        simp only [List.mem_cons] at hblk
        rcases hblk with rfl | hblk2
        · intro x hx
          exact hp x (List.take_subset _ _ hx)
        · exact ih (used.set ti (used.getD ti 0 + 1))
            (prices.drop t.bundleSize.toNat)
            (fun x hx => hp x (List.drop_subset _ _ hx)) blk hblk2

/-- Example FIXED_PRICE_BUNDLE rule: repeatable single tier, size 2,
fixed price 1000p. -/
def exFpbRule : Rule :=
  { rule_id := "F", name := "bundle", priority := 1, ruleType := "FIXED_PRICE_BUNDLE"
    appliesTo := ⟨[], [], [], [], [], none⟩
    constraints := ⟨false, false, false, false, 0⟩
    ruleParams := { tiers := [], applyBase := "subtotal", capAmountPence := 0
                    bundles := none, bundleSize := 2, fixedPricePence := 1000
                    capBundles := 0, repeatable := true } }

/-- The spec example items priced 600, 500, 400, 300 pence. -/
def exFpbItems : List Item :=
  [⟨some 600, none, none, none, none, none, none, none, none⟩,
   ⟨some 500, none, none, none, none, none, none, none, none⟩,
   ⟨some 400, none, none, none, none, none, none, none, none⟩,
   ⟨some 300, none, none, none, none, none, none, none, none⟩]

/-- Items for the size-check example: one 500p item and one 0p item. -/
def exC10Items : List Item :=
  [⟨some 500, none, none, none, none, none, none, none, none⟩,
   ⟨some 0, none, none, none, none, none, none, none, none⟩]

/-- Example TIERED_PERCENT rule with tiers 3→10%, 5→20% and an optional cap. -/
def exTpRule (cap : ℤ) : Rule :=
  { rule_id := "T", name := "tiered", priority := 1, ruleType := "TIERED_PERCENT"
    appliesTo := ⟨[], [], [], [], [], none⟩
    constraints := ⟨false, false, false, false, 0⟩
    ruleParams := { tiers := [⟨3, 10⟩, ⟨5, 20⟩], applyBase := "subtotal"
                    capAmountPence := cap, bundles := none, bundleSize := 0
                    fixedPricePence := 0, capBundles := 0, repeatable := true } }

/-- Five items of 2000p each (group subtotal 10000p). -/
def exTpItems : List Item :=
  List.replicate 5 ⟨some 2000, none, none, none, none, none, none, none, none⟩

end Basket

/-- C4: per group the selected percent is the greatest `percentOff` among
tiers with `minItems ≤` the group count; the group discount truncates
`subtotal * percent / 100` (the floor, for non-negative subtotals); the rule
discount sums the per-group discounts over the constraint-derived groups
(buckets of equal grouping key, in first-occurrence order) and is clamped to
a positive `capAmountPence`; tiers 3→10%/5→20% over five items with
subtotal 10000 give 2000, clamped to 1500 under a 1500 cap. -/
theorem C4_tiered_percent :
    (∀ (tiers : List Basket.TierSpec) (n : ℕ),
      0 ≤ Basket.percentFor
        (tiers.insertionSort fun a b => a.minItems ≤ b.minItems) n ∧
      (∀ t ∈ tiers, t.minItems ≤ (n : ℤ) →
        t.percentOff ≤ Basket.percentFor
          (tiers.insertionSort fun a b => a.minItems ≤ b.minItems) n) ∧
      (Basket.percentFor (tiers.insertionSort fun a b => a.minItems ≤ b.minItems) n = 0 ∨
       ∃ t ∈ tiers, t.minItems ≤ (n : ℤ) ∧
         t.percentOff = Basket.percentFor
           (tiers.insertionSort fun a b => a.minItems ≤ b.minItems) n)) ∧
    (∀ (tiersSorted : List Basket.TierSpec) (gitems : List Basket.Item),
      0 ≤ (gitems.map Basket.price_pence).sum →
      0 < Basket.percentFor tiersSorted gitems.length →
      Basket.tieredGroupDiscount tiersSorted "subtotal" gitems =
        ⌊(((gitems.map Basket.price_pence).sum *
            Basket.percentFor tiersSorted gitems.length : ℤ) : ℚ) / 100⌋) ∧
    (∀ (r : Basket.Rule) (items : List Basket.Item),
      Basket.apply_tiered_percent r items =
        (if r.ruleParams.capAmountPence > 0 ∧
            ((Basket.keysOf r.constraints items).map fun k =>
              Basket.tieredGroupDiscount
                (r.ruleParams.tiers.insertionSort fun a b => a.minItems ≤ b.minItems)
                r.ruleParams.applyBase
                (items.filter fun it =>
                  decide (Basket.group_key it r.constraints = k))).sum >
              r.ruleParams.capAmountPence
         then r.ruleParams.capAmountPence
         else ((Basket.keysOf r.constraints items).map fun k =>
              Basket.tieredGroupDiscount
                (r.ruleParams.tiers.insertionSort fun a b => a.minItems ≤ b.minItems)
                r.ruleParams.applyBase
                (items.filter fun it =>
                  decide (Basket.group_key it r.constraints = k))).sum)) ∧
    (Basket.apply_tiered_percent (Basket.exTpRule 0) Basket.exTpItems = 2000 ∧
     Basket.apply_tiered_percent (Basket.exTpRule 1500) Basket.exTpItems = 1500) := by
  refine ⟨?_, ?_, ?_, by decide, by decide⟩
  · intro tiers n
    have hperm := List.perm_insertionSort
      (fun a b : Basket.TierSpec => a.minItems ≤ b.minItems) tiers
    refine ⟨Basket.percent_fold_ge n _ 0, ?_, ?_⟩
    · intro t ht hsat
      exact Basket.percent_fold_ub n _ 0 t (hperm.mem_iff.mpr ht) hsat
    · rcases Basket.percent_fold_attain n
        (tiers.insertionSort fun a b => a.minItems ≤ b.minItems) 0 with h | ⟨t, ht, hs, hv⟩
      · exact Or.inl h
      · exact Or.inr ⟨t, hperm.mem_iff.mp ht, hs, hv⟩
  · intro tiersSorted gitems hsub hpos
    unfold Basket.tieredGroupDiscount
    rw [if_neg (by omega), if_neg (by simp)]
    have hnn : 0 ≤ (gitems.map Basket.price_pence).sum *
        Basket.percentFor tiersSorted gitems.length :=
      mul_nonneg hsub (le_of_lt hpos)
    rw [Int.tdiv_eq_ediv hnn (by norm_num)]
    have hfl := Rat.floor_intCast_div_natCast
      ((gitems.map Basket.price_pence).sum * Basket.percentFor tiersSorted gitems.length) 100
    rw [show (((100 : ℕ) : ℚ)) = (100 : ℚ) from by norm_num] at hfl
    rw [hfl]
    norm_num
  · intro r items
    unfold Basket.apply_tiered_percent
    rw [Basket.groupsOf_eq]
    simp only [List.map_map]
    rfl

/-- C4 witness: the group-discount formula applied to the five-item example
group with the sorted example tiers. -/
theorem C4_tiered_percent_witness :
    Basket.tieredGroupDiscount [⟨3, 10⟩, ⟨5, 20⟩] "subtotal" Basket.exTpItems =
      ⌊(((Basket.exTpItems.map Basket.price_pence).sum *
          Basket.percentFor [⟨3, 10⟩, ⟨5, 20⟩] Basket.exTpItems.length : ℤ) : ℚ) / 100⌋ :=
  C4_tiered_percent.2.1 [⟨3, 10⟩, ⟨5, 20⟩] Basket.exTpItems (by decide) (by decide)

instance : IsTotal ℤ (fun a b : ℤ => b ≤ a) := ⟨fun a b => le_total b a⟩

instance : IsTrans ℤ (fun a b : ℤ => b ≤ a) :=
  ⟨fun _ _ _ hab hbc => le_trans hbc hab⟩

/-- C1: the repeatable FIXED_PRICE_BUNDLE evaluation sorts the group prices
descending, then repeatedly takes the first tier (largest bundleSize first)
with capBundles room and at least bundleSize remaining items, consumes the
next bundleSize highest-priced items as one bundle at discount
`max 0 (sum - fixedPricePence)`, advances past them and restarts the tier
scan; on a single repeatable tier of size 2 at 1000p over prices
[600, 500, 400, 300] the total discount is 100. -/
theorem C1_fixed_price_bundle_greedy :
    (∀ l : List ℤ, List.Sorted (fun a b : ℤ => b ≤ a) (Basket.sortDesc l) ∧
      List.Perm (Basket.sortDesc l) l) ∧
    (∀ (tiers : List Basket.Tier) (smallest : ℤ),
      (∀ t ∈ tiers, 0 < t.bundleSize) →
      ∀ (used prices : List ℤ),
      Basket.packLoop tiers smallest (prices.length + 1) used prices =
        (if (prices.length : ℤ) < smallest then (0, [])
         else
          match Basket.findTierAux tiers used (prices.length : ℤ) 0 with
          | none => (0, [])
          | some (ti, t) =>
            let block := prices.take t.bundleSize.toNat
            let rest := Basket.packLoop tiers smallest
              ((prices.drop t.bundleSize.toNat).length + 1)
              (used.set ti (used.getD ti 0 + 1)) (prices.drop t.bundleSize.toNat)
            (max 0 (block.sum - t.fixedPricePence) + rest.1, block :: rest.2))) ∧
    (∀ (tiers : List Basket.Tier) (used : List ℤ) (rem : ℤ) (i ti : ℕ)
       (t : Basket.Tier),
      Basket.findTierAux tiers used rem i = some (ti, t) →
      ∃ j, ti = i + j ∧ tiers.get? j = some t ∧
        t.bundleSize ≤ rem ∧
        ¬(t.capBundles > 0 ∧ used.getD ti 0 ≥ t.capBundles) ∧
        ∀ j2, j2 < j → ∀ t2, tiers.get? j2 = some t2 →
          rem < t2.bundleSize ∨
            (t2.capBundles > 0 ∧ used.getD (i + j2) 0 ≥ t2.capBundles)) ∧
    Basket.apply_fixed_price_bundle Basket.exFpbRule Basket.exFpbItems = 100 := by
  refine ⟨?_, Basket.packLoop_step, Basket.findTierAux_first, by decide⟩
  intro l
  exact ⟨List.sorted_insertionSort _ l, List.perm_insertionSort _ l⟩

/-- C1 witness: one step of the greedy loop on the example prices, tier size
2, fixed price 1000. -/
theorem C1_fixed_price_bundle_greedy_witness :
    Basket.packLoop [⟨2, 1000, 0⟩] 2 ([600, 500, 400, 300].length + 1) [0]
        [600, 500, 400, 300] =
      (if (([600, 500, 400, 300] : List ℤ).length : ℤ) < 2 then (0, [])
       else
        match Basket.findTierAux [⟨2, 1000, 0⟩] [0]
            (([600, 500, 400, 300] : List ℤ).length : ℤ) 0 with
        | none => (0, [])
        | some (ti, t) =>
          let block := ([600, 500, 400, 300] : List ℤ).take t.bundleSize.toNat
          let rest := Basket.packLoop [⟨2, 1000, 0⟩] 2
            ((([600, 500, 400, 300] : List ℤ).drop t.bundleSize.toNat).length + 1)
            (([0] : List ℤ).set ti (([0] : List ℤ).getD ti 0 + 1))
            (([600, 500, 400, 300] : List ℤ).drop t.bundleSize.toNat)
          (max 0 (block.sum - t.fixedPricePence) + rest.1, block :: rest.2)) :=
  C1_fixed_price_bundle_greedy.2.1 [⟨2, 1000, 0⟩] 2 (by decide) [0]
    [600, 500, 400, 300]

/-- C10: the minimum-size requirement `max(minItems, smallest bundleSize)` is
tested against the full group count, but items with non-positive computed
price are then dropped from the packing list, so a group can pass the size
check yet pack no bundle, and no bundle ever contains a non-positive price. -/
theorem C10_fpb_size_check_vs_positive_prices :
    (∀ (tiers : List Basket.Tier) (smallest minReq : ℤ) (rep : Bool)
       (gitems : List Basket.Item),
      (gitems.length : ℤ) < max minReq smallest →
      Basket.fpbGroupDiscount tiers smallest minReq rep gitems = 0) ∧
    (∀ l : List ℤ, ∀ x ∈ Basket.sortDesc (l.filter fun x => decide (0 < x)), 0 < x) ∧
    (∀ (tiers : List Basket.Tier) (smallest : ℤ) (fuel : ℕ)
       (used prices : List ℤ), (∀ x ∈ prices, 0 < x) →
      ∀ blk ∈ (Basket.packLoop tiers smallest fuel used prices).2, ∀ x ∈ blk, 0 < x) ∧
    (¬((Basket.exC10Items.length : ℤ) < max 0 2) ∧
     Basket.sortDesc ((Basket.exC10Items.map Basket.price_pence).filter
       fun x => decide (0 < x)) = [500] ∧
     Basket.fpbGroupDiscount [⟨2, 1000, 0⟩] 2 0 true Basket.exC10Items = 0 ∧
     (Basket.packLoop [⟨2, 1000, 0⟩] 2 (([500] : List ℤ).length + 1)
       (List.replicate 1 0) [500]).2 = []) := by
  refine ⟨?_, ?_, Basket.packLoop_bundles_pos, by decide, by decide, by decide, by decide⟩
  · intro tiers smallest minReq rep gitems h
    unfold Basket.fpbGroupDiscount
    rw [if_pos h]
  · intro l x hx
    have hmem := (List.perm_insertionSort
      (fun a b : ℤ => b ≤ a) (l.filter fun x => decide (0 < x))).mem_iff.mp hx
    have := List.of_mem_filter hmem
    simpa using this

/-- C10 witness: bundles packed from an all-positive price list contain only
positive prices. -/
theorem C10_fpb_size_check_vs_positive_prices_witness :
    ∀ blk ∈ (Basket.packLoop [⟨2, 1000, 0⟩] 2 5 [0] [600, 500, 400, 300]).2,
      ∀ x ∈ blk, 0 < x :=
  C10_fpb_size_check_vs_positive_prices.2.2.1 [⟨2, 1000, 0⟩] 2 5 [0]
    [600, 500, 400, 300] (by decide)

/-- C9: the response of `rate_basket` is computed before the best-effort
summary write and a write failure is swallowed, so the returned response is
identical whether the persistence step succeeds or fails (only the stored
record differs). -/
theorem C9_persistence_is_best_effort :
    ∀ (b : Basket.BasketRecord) (rules : List Basket.Rule)
      (w1 w2 : Bool),
      (Basket.rate_basket_endpoint b rules w1).1 =
        (Basket.rate_basket_endpoint b rules w2).1 ∧
      (Basket.rate_basket_endpoint b rules w1).1 = Basket.rate_basket b.items rules ∧
      (Basket.rate_basket_endpoint b rules true).2 = b := by
  intro b rules w1 w2
  exact ⟨rfl, rfl, rfl⟩

/-- C3: every active rule is evaluated over the whole basket; the best rule
has the strictly greatest positive discount with ties broken by higher
priority (discount 500 / priority 5 beats discount 500 / priority 1); no
rule is selected when no discount is positive; and
`final_total = max(0, subtotal - discount)` with the subtotal summing
`price_pence`, which falls back to `round(price * 100)`. -/
theorem C3_rule_selection :
    (∀ (items : List Basket.Item) (rules : List Basket.Rule),
      (Basket.rate_basket items rules).results =
        rules.map (fun r => Basket.evaluate_rule r items) ∧
      (Basket.rate_basket items rules).subtotal =
        (items.map Basket.price_pence).sum ∧
      (Basket.rate_basket items rules).final_total =
        max 0 ((Basket.rate_basket items rules).subtotal -
          (Basket.rate_basket items rules).discount)) ∧
    (∀ (items : List Basket.Item) (rules : List Basket.Rule) (b : Basket.RuleResult),
      (Basket.rate_basket items rules).best = some b →
      b ∈ (Basket.rate_basket items rules).results ∧ 0 < b.discount ∧
      (Basket.rate_basket items rules).discount = b.discount ∧
      ∀ r ∈ (Basket.rate_basket items rules).results, 0 < r.discount →
        r.discount ≤ b.discount ∧
        (r.discount = b.discount → r.priority ≤ b.priority)) ∧
    (∀ (items : List Basket.Item) (rules : List Basket.Rule),
      (Basket.rate_basket items rules).best = none →
      (Basket.rate_basket items rules).discount = 0 ∧
      ∀ r ∈ (Basket.rate_basket items rules).results, r.discount ≤ 0) ∧
    (∀ (it : Basket.Item) (n : ℤ),
      it.rounded_price_pence = some n → Basket.price_pence it = n) ∧
    (∀ (it : Basket.Item) (q : ℚ),
      it.rounded_price_pence = none → it.rounded_price = some q →
      Basket.price_pence it = roundHalfEven (q * 100)) := by
  refine ⟨fun items rules => ⟨rfl, rfl, rfl⟩, ?_, ?_, ?_, ?_⟩
  · intro items rules b h
    have hcb : Basket.choose_best
        (rules.map fun r => Basket.evaluate_rule r items) = some b := h
    obtain ⟨hmem, hpos, hmax⟩ := Basket.choose_best_some _ b hcb
    refine ⟨hmem, hpos, ?_, hmax⟩
    have hd : (Basket.rate_basket items rules).discount =
        (match (Basket.rate_basket items rules).best with
         | some x => x.discount
         | none => (0 : ℤ)) := rfl
    rw [hd, h]
  · intro items rules h
    have hcb : Basket.choose_best
        (rules.map fun r => Basket.evaluate_rule r items) = none := h
    constructor
    · have hd : (Basket.rate_basket items rules).discount =
          (match (Basket.rate_basket items rules).best with
           | some x => x.discount
           | none => (0 : ℤ)) := rfl
      rw [hd, h]
    · exact Basket.choose_best_none _ hcb
  · intro it n h
    unfold Basket.price_pence
    rw [h]
  · intro it q h1 h2
    unfold Basket.price_pence
    rw [h1, h2]

/-- C3 witness: two tiered rules both discounting 500 over five 1000p items;
the priority-5 rule is selected over the priority-1 rule. -/
theorem C3_rule_selection_witness :
    (Basket.rate_basket Basket.exItems [Basket.exRuleA, Basket.exRuleB]).best =
      some (Basket.evaluate_rule Basket.exRuleB Basket.exItems) ∧
    (Basket.evaluate_rule Basket.exRuleB Basket.exItems).priority = 5 ∧
    (Basket.evaluate_rule Basket.exRuleB Basket.exItems).discount = 500 ∧
    (Basket.evaluate_rule Basket.exRuleA Basket.exItems).discount = 500 ∧
    0 < (Basket.evaluate_rule Basket.exRuleB Basket.exItems).discount ∧
    (Basket.rate_basket Basket.exItems [Basket.exRuleA, Basket.exRuleB]).discount =
      (Basket.evaluate_rule Basket.exRuleB Basket.exItems).discount := by
  refine ⟨by decide, by decide, by decide, by decide, ?_, ?_⟩
  · exact (C3_rule_selection.2.1 Basket.exItems [Basket.exRuleA, Basket.exRuleB]
      (Basket.evaluate_rule Basket.exRuleB Basket.exItems) (by decide)).2.1
  · exact (C3_rule_selection.2.1 Basket.exItems [Basket.exRuleA, Basket.exRuleB]
      (Basket.evaluate_rule Basket.exRuleB Basket.exItems) (by decide)).2.2.1

/-- C2 witness: at `w = 5`, `c = 12` (input `5.12`) the amended theorem applies,
and separately the idempotence branch applies at `v = 7.49`. -/
theorem C2_round_price_49_99_witness :
    RateReq.round_price_49_99 (749/100) = 749/100 ∧
    ((100 * 5 + 12 : ℕ) : ℚ) / 100 <
      RateReq.round_price_49_99 (((100 * 5 + 12 : ℕ) : ℚ) / 100) := by
  constructor
  · exact C2_round_price_49_99.1 (749/100) (by unfold pyMod1; norm_num)
  · exact (C2_round_price_49_99.2 5 12 (by norm_num) (by norm_num) (by norm_num)).1

